import Mathlib

/-!
Verification development for the pathtracer's core math kernels.

The geometry and shading kernels (WGSL compute/fragment shaders and the
C sky-model library) are embedded shallowly over exact rational
arithmetic `ℚ`: every float operation of the source that is pure field
arithmetic (add/sub/mul/div and comparisons) is translated exactly, and
the handful of operations with no rational counterpart (square root,
the bit-level mantissa nudge of `offsetPosition`, and the transcendental
functions `cos`/`sin`/`exp`/`pow`) are abstracted as function parameters
of the model.  These abstracted operations only ever affect payload
values (normals, offset hit points, shading colors), never any control
flow or comparison of the embedded code, so hit/miss classifications and
parametric distances are exact.
-/

namespace PT

/-- Exact model of a `vec3f`. -/
@[ext]
structure Vec3 where
  x : ℚ
  y : ℚ
  z : ℚ
deriving DecidableEq, Repr

namespace Vec3

def add (a b : Vec3) : Vec3 := ⟨a.x + b.x, a.y + b.y, a.z + b.z⟩

def sub (a b : Vec3) : Vec3 := ⟨a.x - b.x, a.y - b.y, a.z - b.z⟩

def smul (c : ℚ) (a : Vec3) : Vec3 := ⟨c * a.x, c * a.y, c * a.z⟩

instance : Add Vec3 := ⟨add⟩

instance : Sub Vec3 := ⟨sub⟩

instance : HMul ℚ Vec3 Vec3 := ⟨smul⟩

/-- Componentwise product, WGSL `vec3f * vec3f`. -/
def cmul (a b : Vec3) : Vec3 := ⟨a.x * b.x, a.y * b.y, a.z * b.z⟩

def dot (a b : Vec3) : ℚ := a.x * b.x + a.y * b.y + a.z * b.z

def cross (a b : Vec3) : Vec3 :=
  ⟨a.y * b.z - a.z * b.y, a.z * b.x - a.x * b.z, a.x * b.y - a.y * b.x⟩

def zero : Vec3 := ⟨0, 0, 0⟩

@[simp] theorem add_x (a b : Vec3) : (a + b).x = a.x + b.x := rfl
@[simp] theorem add_y (a b : Vec3) : (a + b).y = a.y + b.y := rfl
@[simp] theorem add_z (a b : Vec3) : (a + b).z = a.z + b.z := rfl
@[simp] theorem sub_x (a b : Vec3) : (a - b).x = a.x - b.x := rfl
@[simp] theorem sub_y (a b : Vec3) : (a - b).y = a.y - b.y := rfl
@[simp] theorem sub_z (a b : Vec3) : (a - b).z = a.z - b.z := rfl
@[simp] theorem smul_x (c : ℚ) (a : Vec3) : (c * a).x = c * a.x := rfl
@[simp] theorem smul_y (c : ℚ) (a : Vec3) : (c * a).y = c * a.y := rfl
@[simp] theorem smul_z (c : ℚ) (a : Vec3) : (c * a).z = c * a.z := rfl

end Vec3

/-- Exact model of a `vec2f`. -/
@[ext]
structure Vec2 where
  x : ℚ
  y : ℚ
deriving DecidableEq, Repr

namespace Vec2

def add (a b : Vec2) : Vec2 := ⟨a.x + b.x, a.y + b.y⟩

def smul (c : ℚ) (a : Vec2) : Vec2 := ⟨c * a.x, c * a.y⟩

instance : Add Vec2 := ⟨add⟩

instance : HMul ℚ Vec2 Vec2 := ⟨smul⟩

def zero : Vec2 := ⟨0, 0⟩

end Vec2

/-- WGSL `const EPSILON = 0.00001f`. -/
def EPSILON : ℚ := 1 / 100000

/-- WGSL `struct Ray`. -/
structure Ray where
  origin : Vec3
  direction : Vec3
deriving DecidableEq, Repr

/-- WGSL `struct Aabb`. -/
structure Aabb where
  min : Vec3
  max : Vec3
deriving DecidableEq, Repr

/-- WGSL `struct BvhNode` (flattened node array element). -/
structure BvhNode where
  aabb : Aabb
  trianglesOffset : ℕ
  secondChildOffset : ℕ
  triangleCount : ℕ
  splitAxis : ℕ
deriving DecidableEq, Repr

/-- WGSL `struct Positions` (triangle position attributes). -/
structure Positions where
  p0 : Vec3
  p1 : Vec3
  p2 : Vec3
deriving DecidableEq, Repr

/-- WGSL `struct VertexAttributes`. -/
structure VertexAttributes where
  n0 : Vec3
  n1 : Vec3
  n2 : Vec3
  uv0 : Vec2
  uv1 : Vec2
  uv2 : Vec2
  textureDescriptorIdx : ℕ
deriving DecidableEq, Repr

/-- WGSL `struct TriangleHit` (deferred shader). -/
structure TriangleHit where
  p : Vec3
  b : Vec3
  t : ℚ
deriving DecidableEq, Repr

/-- WGSL `struct Intersection` (deferred shader). -/
structure Intersection where
  p : Vec3
  n : Vec3
  uv : Vec2
  textureDescriptorIdx : ℕ
deriving DecidableEq, Repr

/-- WGSL `struct Intersection` of the reference raytracer shader. -/
structure IntersectionRT where
  p : Vec3
  n : Vec3
  t : ℚ
deriving DecidableEq, Repr

section Triangle

-- `sq` abstracts the square root used by WGSL `normalize`; the embedding
-- never depends on its values for any control-flow decision.
-- `offsetP` abstracts the bit-level self-intersection offset
-- `offsetPosition`: its mantissa nudge is float-representation specific
-- and only perturbs the returned payload point.
variable (sq : ℚ → ℚ) (offsetP : Vec3 → Vec3 → Vec3)

/-- WGSL `normalize(v) = v / length(v)` with the square root abstracted. -/
def normalize (v : Vec3) : Vec3 := (1 / sq (Vec3.dot v v)) * v

/-- WGSL `rayIntersectTriangle` (deferred shader, `Positions` variant):
Möller–Trumbore with barycentric output and offset hit point. -/
def rayIntersectTriangle (ray : Ray) (tri : Positions) (tmax : ℚ) :
    Option TriangleHit :=
  let e1 := tri.p1 - tri.p0
  let e2 := tri.p2 - tri.p0
  let h := Vec3.cross ray.direction e2
  let det := Vec3.dot e1 h
  if det > -EPSILON ∧ det < EPSILON then none
  else
    let invDet := 1 / det
    let s := ray.origin - tri.p0
    let u := invDet * Vec3.dot s h
    if u < 0 ∨ u > 1 then none
    else
      let q := Vec3.cross s e1
      let v := invDet * Vec3.dot ray.direction q
      if v < 0 ∨ u + v > 1 then none
      else
        let t := invDet * Vec3.dot e2 q
        if EPSILON < t ∧ t < tmax then
          let p := tri.p0 + u * e1 + v * e2
          let n := normalize sq (Vec3.cross e1 e2)
          some ⟨offsetP p n, ⟨1 - u - v, u, v⟩, t⟩
        else none

/-- WGSL `rayIntersectTriangle` of the reference raytracer shader
(`Triangle` variant): identical Möller–Trumbore core, hit point as
`rayPointAtParameter`. -/
def rayIntersectTriangleRT (ray : Ray) (tri : Positions) (tmax : ℚ) :
    Option IntersectionRT :=
  let e1 := tri.p1 - tri.p0
  let e2 := tri.p2 - tri.p0
  let h := Vec3.cross ray.direction e2
  let det := Vec3.dot e1 h
  if det > -EPSILON ∧ det < EPSILON then none
  else
    let invDet := 1 / det
    let s := ray.origin - tri.p0
    let u := invDet * Vec3.dot s h
    if u < 0 ∨ u > 1 then none
    else
      let q := Vec3.cross s e1
      let v := invDet * Vec3.dot ray.direction q
      if v < 0 ∨ u + v > 1 then none
      else
        let t := invDet * Vec3.dot e2 q
        if EPSILON < t ∧ t < tmax then
          some ⟨ray.origin + t * ray.direction, normalize sq (Vec3.cross e1 e2), t⟩
        else none

/-- Raw Möller–Trumbore determinant. -/
def mtDet (ray : Ray) (tri : Positions) : ℚ :=
  Vec3.dot (tri.p1 - tri.p0) (Vec3.cross ray.direction (tri.p2 - tri.p0))

/-- Raw Möller–Trumbore barycentric `u`. -/
def mtU (ray : Ray) (tri : Positions) : ℚ :=
  1 / mtDet ray tri *
    Vec3.dot (ray.origin - tri.p0) (Vec3.cross ray.direction (tri.p2 - tri.p0))

/-- Raw Möller–Trumbore barycentric `v`. -/
def mtV (ray : Ray) (tri : Positions) : ℚ :=
  1 / mtDet ray tri *
    Vec3.dot ray.direction (Vec3.cross (ray.origin - tri.p0) (tri.p1 - tri.p0))

/-- Raw Möller–Trumbore root `t`. -/
def mtT (ray : Ray) (tri : Positions) : ℚ :=
  1 / mtDet ray tri *
    Vec3.dot (tri.p2 - tri.p0) (Vec3.cross (ray.origin - tri.p0) (tri.p1 - tri.p0))

/-- Acceptance conditions of the Möller–Trumbore routine that do not
depend on the query's `tmax` bound. -/
def mtAccept (ray : Ray) (tri : Positions) : Prop :=
  ¬(mtDet ray tri > -EPSILON ∧ mtDet ray tri < EPSILON) ∧
    ¬(mtU ray tri < 0 ∨ mtU ray tri > 1) ∧
    ¬(mtV ray tri < 0 ∨ mtU ray tri + mtV ray tri > 1) ∧
    EPSILON < mtT ray tri

instance (ray : Ray) (tri : Positions) : Decidable (mtAccept ray tri) := by
  unfold mtAccept; infer_instance

/-- The hit payload produced by the deferred-shader triangle routine. -/
def mtHit (ray : Ray) (tri : Positions) : TriangleHit :=
  let e1 := tri.p1 - tri.p0
  let e2 := tri.p2 - tri.p0
  let u := mtU ray tri
  let v := mtV ray tri
  ⟨offsetP (tri.p0 + u * e1 + v * e2) (normalize sq (Vec3.cross e1 e2)),
    ⟨1 - u - v, u, v⟩, mtT ray tri⟩

theorem rayIntersectTriangle_eq (ray : Ray) (tri : Positions) (tmax : ℚ) :
    rayIntersectTriangle sq offsetP ray tri tmax =
      if mtAccept ray tri ∧ mtT ray tri < tmax then
        some (mtHit sq offsetP ray tri) else none := by
  simp only [rayIntersectTriangle, mtAccept, mtHit, mtT, mtU, mtV, mtDet]
  split_ifs <;> first
    | rfl
    | (exfalso; tauto)

/-- The hit payload produced by the reference-raytracer triangle
routine. -/
def mtHitRT (ray : Ray) (tri : Positions) : IntersectionRT :=
  ⟨ray.origin + mtT ray tri * ray.direction,
    normalize sq (Vec3.cross (tri.p1 - tri.p0) (tri.p2 - tri.p0)),
    mtT ray tri⟩

theorem rayIntersectTriangleRT_eq (ray : Ray) (tri : Positions)
    (tmax : ℚ) :
    rayIntersectTriangleRT sq ray tri tmax =
      if mtAccept ray tri ∧ mtT ray tri < tmax then
        some (mtHitRT sq ray tri) else none := by
  simp only [rayIntersectTriangleRT, mtAccept, mtHitRT, mtT, mtU, mtV,
    mtDet]
  split_ifs <;> first
    | rfl
    | (exfalso; tauto)

end Triangle

/-- The accepted Möller–Trumbore hit point written as a convex combination
of the triangle's vertices. -/
theorem mt_point_convex (tri : Positions) (u v : ℚ) :
    tri.p0 + u * (tri.p1 - tri.p0) + v * (tri.p2 - tri.p0) =
      (1 - u - v) * tri.p0 + u * tri.p1 + v * tri.p2 := by
  ext <;> simp <;> ring

/-- Cramer's rule for the Möller–Trumbore linear system: the computed
barycentric point lies on the ray at parameter `mtT`. -/
theorem mt_point_on_ray (ray : Ray) (tri : Positions)
    (hdet : mtDet ray tri ≠ 0) :
    tri.p0 + mtU ray tri * (tri.p1 - tri.p0) +
        mtV ray tri * (tri.p2 - tri.p0) =
      ray.origin + mtT ray tri * ray.direction := by
  unfold mtDet at hdet
  unfold mtU mtV mtT mtDet
  ext <;>
    · simp only [Vec3.dot, Vec3.cross, Vec3.add_x, Vec3.add_y, Vec3.add_z,
        Vec3.sub_x, Vec3.sub_y, Vec3.sub_z, Vec3.smul_x, Vec3.smul_y,
        Vec3.smul_z] at hdet ⊢
      field_simp
      ring

/-- WGSL `struct RayAabbIntersector`. -/
structure RayAabbIntersector where
  origin : Vec3
  invDir : Vec3
  dirNeg0 : ℕ
  dirNeg1 : ℕ
  dirNeg2 : ℕ
deriving DecidableEq, Repr

/-- Dynamic component indexing `intersector.dirNeg[axis]`; WGSL clamps
out-of-range vector indices to the last component. -/
def RayAabbIntersector.dirNegAt (i : RayAabbIntersector) (axis : ℕ) : ℕ :=
  if axis = 0 then i.dirNeg0 else if axis = 1 then i.dirNeg1 else i.dirNeg2

/-- WGSL `rayAabbIntersector`: precomputed inverse direction and per-axis
direction-negative flags. -/
def rayAabbIntersector (ray : Ray) : RayAabbIntersector :=
  let invDirection : Vec3 :=
    ⟨1 / ray.direction.x, 1 / ray.direction.y, 1 / ray.direction.z⟩
  ⟨ray.origin, invDirection,
    if invDirection.x < 0 then 1 else 0,
    if invDirection.y < 0 then 1 else 0,
    if invDirection.z < 0 then 1 else 0⟩

/-- The two-element `bounds` array `array(aabb.min, aabb.max)`. -/
def aabbBounds (aabb : Aabb) (k : ℕ) : Vec3 :=
  if k = 0 then aabb.min else aabb.max

/-- WGSL `rayIntersectAabb`: slab method with precomputed inverse
direction, early rejects, and the `tmin < rayTMax && tmax > 0` final
test. -/
def rayIntersectAabb (intr : RayAabbIntersector) (aabb : Aabb)
    (rayTMax : ℚ) : Bool :=
  let bounds := aabbBounds aabb
  let tmin := ((bounds intr.dirNeg0).x - intr.origin.x) * intr.invDir.x
  let tmax := ((bounds (1 - intr.dirNeg0)).x - intr.origin.x) * intr.invDir.x
  let tymin := ((bounds intr.dirNeg1).y - intr.origin.y) * intr.invDir.y
  let tymax := ((bounds (1 - intr.dirNeg1)).y - intr.origin.y) * intr.invDir.y
  if tmin > tymax ∨ tymin > tmax then false
  else
    let tmin := max tymin tmin
    let tmax := min tymax tmax
    let tzmin := ((bounds intr.dirNeg2).z - intr.origin.z) * intr.invDir.z
    let tzmax := ((bounds (1 - intr.dirNeg2)).z - intr.origin.z) * intr.invDir.z
    if tmin > tzmax ∨ tzmin > tmax then false
    else
      let tmin := max tzmin tmin
      let tmax := min tzmax tmax
      tmin < rayTMax ∧ tmax > 0

/-- A point lies inside an AABB (componentwise). -/
def containsPoint (aabb : Aabb) (q : Vec3) : Bool :=
  aabb.min.x ≤ q.x ∧ q.x ≤ aabb.max.x ∧
    aabb.min.y ≤ q.y ∧ q.y ≤ aabb.max.y ∧
    aabb.min.z ≤ q.z ∧ q.z ≤ aabb.max.z

/-- One-axis slab bracket: if the point at parameter `t` lies within the
slab on an axis with nonzero direction, `t` lies between the selected
near and far slab distances. -/
theorem slab_axis_bracket (o d mn mx t : ℚ) (hd : d ≠ 0)
    (hlo : mn ≤ o + t * d) (hhi : o + t * d ≤ mx) :
    ((if 1 / d < 0 then mx else mn) - o) * (1 / d) ≤ t ∧
      t ≤ ((if 1 / d < 0 then mn else mx) - o) * (1 / d) := by
  rcases lt_or_gt_of_ne hd with hneg | hpos
  · have hinv : 1 / d < 0 := one_div_neg.mpr hneg
    rw [if_pos hinv, if_pos hinv]
    constructor
    · rw [mul_one_div, div_le_iff_of_neg hneg]
      nlinarith
    · rw [mul_one_div, le_div_iff_of_neg hneg]
      nlinarith
  · have hinv : ¬(1 / d < 0) := by
      push_neg
      positivity
    rw [if_neg hinv, if_neg hinv]
    constructor
    · rw [mul_one_div, div_le_iff₀ hpos]
      nlinarith
    · rw [mul_one_div, le_div_iff₀ hpos]
      nlinarith

theorem aabbBounds_dirNeg (aabb : Aabb) (c : Prop) [Decidable c] :
    aabbBounds aabb (if c then 1 else 0) =
      if c then aabb.max else aabb.min := by
  split_ifs <;> simp [aabbBounds]

theorem aabbBounds_one_sub_dirNeg (aabb : Aabb) (c : Prop) [Decidable c] :
    aabbBounds aabb (1 - (if c then 1 else 0)) =
      if c then aabb.min else aabb.max := by
  split_ifs <;> simp [aabbBounds]

/-- Conservativeness of the slab test: a box containing a ray point at a
parameter in `(0, rayTMax)` always passes `rayIntersectAabb`, provided no
direction component is zero. -/
theorem rayIntersectAabb_conservative (ray : Ray) (aabb : Aabb)
    (rayTMax t : ℚ)
    (hdx : ray.direction.x ≠ 0) (hdy : ray.direction.y ≠ 0)
    (hdz : ray.direction.z ≠ 0)
    (hq : containsPoint aabb (ray.origin + t * ray.direction) = true)
    (ht0 : 0 < t) (htm : t < rayTMax) :
    rayIntersectAabb (rayAabbIntersector ray) aabb rayTMax = true := by
  simp only [containsPoint, decide_eq_true_eq] at hq
  obtain ⟨hx1, hx2, hy1, hy2, hz1, hz2⟩ := hq
  simp only [Vec3.add_x, Vec3.add_y, Vec3.add_z, Vec3.smul_x, Vec3.smul_y,
    Vec3.smul_z] at hx1 hx2 hy1 hy2 hz1 hz2
  have hX := slab_axis_bracket ray.origin.x ray.direction.x aabb.min.x
    aabb.max.x t hdx hx1 hx2
  have hY := slab_axis_bracket ray.origin.y ray.direction.y aabb.min.y
    aabb.max.y t hdy hy1 hy2
  have hZ := slab_axis_bracket ray.origin.z ray.direction.z aabb.min.z
    aabb.max.z t hdz hz1 hz2
  simp only [rayIntersectAabb, rayAabbIntersector, aabbBounds_dirNeg,
    aabbBounds_one_sub_dirNeg, apply_ite Vec3.x, apply_ite Vec3.y,
    apply_ite Vec3.z]
  by_cases hnx : 1 / ray.direction.x < 0 <;>
    by_cases hny : 1 / ray.direction.y < 0 <;>
      by_cases hnz : 1 / ray.direction.z < 0 <;>
        · simp only [hnx, hny, hnz, if_true, if_false, ite_true, ite_false,
            reduceIte] at hX hY hZ ⊢
          split_ifs with h1 h2
          · exfalso
            rcases h1 with h | h
            · exact absurd (le_trans hX.1 hY.2) (not_le.mpr h)
            · exact absurd (le_trans hY.1 hX.2) (not_le.mpr h)
          · exfalso
            rcases h2 with h | h
            · exact absurd (le_trans (max_le hY.1 hX.1) hZ.2) (not_le.mpr h)
            · exact absurd (le_min (le_trans hZ.1 hY.2) (le_trans hZ.1 hX.2))
                (not_le.mpr h)
          · simp only [decide_eq_true_eq]
            exact ⟨lt_of_le_of_lt (max_le hZ.1 (max_le hY.1 hX.1)) htm,
              lt_min (lt_of_lt_of_le ht0 hZ.2)
                (lt_min (lt_of_lt_of_le ht0 hY.2) (lt_of_lt_of_le ht0 hX.2))⟩

section Bvh

variable (sq : ℚ → ℚ) (offsetP : Vec3 → Vec3 → Vec3)
variable (bvhNodes : ℕ → BvhNode) (positionAttributes : ℕ → Positions)
variable (vertexAttributes : ℕ → VertexAttributes)

/-- The mutable locals of the closest-hit traversal loop (`tmax`,
`didIntersect`, and the output `Intersection`), plus a ghost observation
`maxToVisit` recording the highest value the stack index `toVisitOffset`
ever takes during the traversal. -/
structure BvhLoopState where
  tmax : ℚ
  didIntersect : Bool
  hit : Intersection
  maxToVisit : ℕ
deriving DecidableEq, Repr

/-- WGSL `var hit: Intersection` is zero-initialized. -/
def defaultIntersection : Intersection := ⟨Vec3.zero, Vec3.zero, Vec2.zero, 0⟩

/-- The `Intersection` payload written at a leaf for triangle index `i`:
barycentric-interpolated normal and UV, and the texture descriptor index
(deferred shader, lines 313–322). -/
def mkIntersection (i : ℕ) (th : TriangleHit) : Intersection :=
  let vert := vertexAttributes i
  ⟨th.p,
    th.b.x * vert.n0 + th.b.y * vert.n1 + th.b.z * vert.n2,
    th.b.x * vert.uv0 + th.b.y * vert.uv1 + th.b.z * vert.uv2,
    (vertexAttributes i).textureDescriptorIdx⟩

/-- One iteration of a leaf's triangle loop: test triangle
`trianglesOffset + idx` against the current `tmax`, and on a hit shrink
`tmax` and overwrite the output intersection. -/
def triStep (ray : Ray) (off : ℕ) (st : BvhLoopState) (idx : ℕ) :
    BvhLoopState :=
  match rayIntersectTriangle sq offsetP ray (positionAttributes (off + idx))
      st.tmax with
  | some th =>
    { st with
      tmax := th.t
      didIntersect := true
      hit := mkIntersection vertexAttributes (off + idx) th }
  | none => st

/-- A leaf's `for (var idx = 0u; idx < node.triangleCount; ...)` loop. -/
def leafLoop (ray : Ray) (off cnt : ℕ) (st : BvhLoopState) : BvhLoopState :=
  (List.range cnt).foldl
    (triStep sq offsetP positionAttributes vertexAttributes ray off) st

/-- The closest-hit traversal loop of WGSL `rayIntersectBvh`, with the
explicit stack modelled as a list (`toVisitOffset = stack length`) and a
fuel bound on the number of iterations. -/
def rayIntersectBvhGo (ray : Ray) (intr : RayAabbIntersector) :
    ℕ → List ℕ → ℕ → BvhLoopState → BvhLoopState
  | 0, _, _, st => st
  | fuel + 1, stack, currentNodeIdx, st =>
    let node := bvhNodes currentNodeIdx
    if rayIntersectAabb intr node.aabb st.tmax then
      if 0 < node.triangleCount then
        let st1 := leafLoop sq offsetP positionAttributes vertexAttributes
          ray node.trianglesOffset node.triangleCount st
        match stack with
        | [] => st1
        | top :: rest =>
          rayIntersectBvhGo ray intr fuel rest top st1
      else
        if intr.dirNegAt node.splitAxis = 1 then
          rayIntersectBvhGo ray intr fuel ((currentNodeIdx + 1) :: stack)
            node.secondChildOffset
            { st with maxToVisit := max st.maxToVisit (stack.length + 1) }
        else
          rayIntersectBvhGo ray intr fuel (node.secondChildOffset :: stack)
            (currentNodeIdx + 1)
            { st with maxToVisit := max st.maxToVisit (stack.length + 1) }
    else
      match stack with
      | [] => st
      | top :: rest =>
        rayIntersectBvhGo ray intr fuel rest top st

/-- WGSL `rayIntersectBvh` (deferred shader): start at the root with an
empty stack and `tmax = rayTMax`. -/
def rayIntersectBvh (ray : Ray) (rayTMax : ℚ) (fuel : ℕ) : BvhLoopState :=
  rayIntersectBvhGo sq offsetP bvhNodes positionAttributes vertexAttributes
    ray (rayAabbIntersector ray) fuel [] 0
    ⟨rayTMax, false, defaultIntersection, 0⟩

/-- Result of the shadow traversal: the returned visibility (`1f` if no
forward intersection, `0f` otherwise) and the ghost stack high-water
observation. -/
structure ShadowResult where
  visibility : ℚ
  maxToVisit : ℕ
deriving DecidableEq, Repr

/-- A shadow leaf's triangle loop: `return 0f` as soon as any contained
triangle is hit before `rayTMax`. -/
def shadowLeafAnyHit (ray : Ray) (rayTMax : ℚ) (off cnt : ℕ) : Bool :=
  (List.range cnt).any fun idx =>
    (rayIntersectTriangle sq offsetP ray (positionAttributes (off + idx))
      rayTMax).isSome

/-- The any-hit traversal loop of WGSL `shadowRay`. -/
def shadowRayGo (ray : Ray) (intr : RayAabbIntersector) (rayTMax : ℚ) :
    ℕ → List ℕ → ℕ → ℕ → ShadowResult
  | 0, _, _, ms => ⟨1, ms⟩
  | fuel + 1, stack, currentNodeIdx, ms =>
    let node := bvhNodes currentNodeIdx
    if rayIntersectAabb intr node.aabb rayTMax then
      if 0 < node.triangleCount then
        if shadowLeafAnyHit sq offsetP positionAttributes ray rayTMax
            node.trianglesOffset node.triangleCount then ⟨0, ms⟩
        else
          match stack with
          | [] => ⟨1, ms⟩
          | top :: rest => shadowRayGo ray intr rayTMax fuel rest top ms
      else
        if intr.dirNegAt node.splitAxis = 1 then
          shadowRayGo ray intr rayTMax fuel ((currentNodeIdx + 1) :: stack)
            node.secondChildOffset (max ms (stack.length + 1))
        else
          shadowRayGo ray intr rayTMax fuel (node.secondChildOffset :: stack)
            (currentNodeIdx + 1) (max ms (stack.length + 1))
    else
      match stack with
      | [] => ⟨1, ms⟩
      | top :: rest => shadowRayGo ray intr rayTMax fuel rest top ms

/-- WGSL `shadowRay` (deferred shader). -/
def shadowRay (ray : Ray) (rayTMax : ℚ) (fuel : ℕ) : ShadowResult :=
  shadowRayGo sq offsetP bvhNodes positionAttributes ray
    (rayAabbIntersector ray) rayTMax fuel [] 0 0

end Bvh

/-- Shape of the binary tree a flattened BVH node array encodes. -/
inductive BvhTree where
  | leaf : BvhTree
  | node (l r : BvhTree) : BvhTree
deriving DecidableEq, Repr

/-- Number of nodes of the encoded tree; an upper bound on the number of
traversal-loop iterations. -/
def BvhTree.size : BvhTree → ℕ
  | .leaf => 1
  | .node l r => 1 + l.size + r.size

/-- Number of interior nodes along the longest root-to-leaf path. -/
def BvhTree.interiorDepth : BvhTree → ℕ
  | .leaf => 0
  | .node l r => 1 + max l.interiorDepth r.interiorDepth

/-- The flattened node array encodes tree `t` rooted at index `i`: leaves
have a positive `triangleCount`, interior nodes have `triangleCount = 0`,
their first child at `i + 1` and their second child at
`secondChildOffset`. -/
def represents (nodes : ℕ → BvhNode) : ℕ → BvhTree → Bool
  | i, .leaf => decide (0 < (nodes i).triangleCount)
  | i, .node l r =>
    decide ((nodes i).triangleCount = 0) && represents nodes (i + 1) l &&
      represents nodes (nodes i).secondChildOffset r

/-- Triangle indices referenced by the subtree rooted at index `i`. -/
def trisOf (nodes : ℕ → BvhNode) : ℕ → BvhTree → List ℕ
  | i, .leaf =>
    (List.range (nodes i).triangleCount).map ((nodes i).trianglesOffset + ·)
  | i, .node l r =>
    trisOf nodes (i + 1) l ++ trisOf nodes (nodes i).secondChildOffset r

/-- All three vertices of a triangle lie inside an AABB. -/
def containsTriangle (box : Aabb) (tri : Positions) : Bool :=
  containsPoint box tri.p0 && containsPoint box tri.p1 &&
    containsPoint box tri.p2

/-- Geometric well-formedness of the flattened BVH: every node's AABB
contains every triangle referenced in its subtree. -/
def wfBvh (nodes : ℕ → BvhNode) (positions : ℕ → Positions) :
    ℕ → BvhTree → Bool
  | i, .leaf =>
    (trisOf nodes i .leaf).all fun j =>
      containsTriangle (nodes i).aabb (positions j)
  | i, .node l r =>
    ((trisOf nodes i (.node l r)).all fun j =>
      containsTriangle (nodes i).aabb (positions j)) &&
      wfBvh nodes positions (i + 1) l &&
      wfBvh nodes positions (nodes i).secondChildOffset r

/-- Triangle indices referenced by a stack of subtree roots. -/
def stackTris (nodes : ℕ → BvhNode) (stack : List ℕ) (ts : List BvhTree) :
    List ℕ :=
  (List.zipWith (trisOf nodes) stack ts).flatten

theorem EPSILON_pos : (0 : ℚ) < EPSILON := by norm_num [EPSILON]

theorem BvhTree.size_pos (t : BvhTree) : 0 < t.size := by
  cases t <;> simp [BvhTree.size]

theorem mtAccept_det_ne {ray : Ray} {tri : Positions}
    (h : mtAccept ray tri) : mtDet ray tri ≠ 0 := by
  obtain ⟨h1, -, -, -⟩ := h
  push_neg at h1
  intro h0
  rcases lt_or_le (mtDet ray tri) EPSILON with hlt | hge
  · have := h1
    rw [h0] at this hlt
    have h2 := this (by simpa using neg_neg_of_pos EPSILON_pos)
    exact absurd h2 (not_le.mpr EPSILON_pos)
  · rw [h0] at hge
    exact absurd hge (not_le.mpr EPSILON_pos)

theorem mtAccept_bary {ray : Ray} {tri : Positions} (h : mtAccept ray tri) :
    0 ≤ mtU ray tri ∧ mtU ray tri ≤ 1 ∧ 0 ≤ mtV ray tri ∧
      mtU ray tri + mtV ray tri ≤ 1 := by
  obtain ⟨-, h2, h3, -⟩ := h
  push_neg at h2 h3
  exact ⟨h2.1, h2.2, h3.1, h3.2⟩

theorem rayIntersectTriangle_isSome (sq : ℚ → ℚ)
    (offsetP : Vec3 → Vec3 → Vec3) (ray : Ray) (tri : Positions) (τ : ℚ) :
    (rayIntersectTriangle sq offsetP ray tri τ).isSome = true ↔
      mtAccept ray tri ∧ mtT ray tri < τ := by
  rw [rayIntersectTriangle_eq]
  split_ifs with h <;> simp [h]

/-- Scalar form of the convex-combination bound for three points. -/
theorem convex3_bound (mn mx a b c l1 l2 l3 : ℚ)
    (ha1 : mn ≤ a) (ha2 : a ≤ mx) (hb1 : mn ≤ b) (hb2 : b ≤ mx)
    (hc1 : mn ≤ c) (hc2 : c ≤ mx)
    (h1 : 0 ≤ l1) (h2 : 0 ≤ l2) (h3 : 0 ≤ l3) (hsum : l1 + l2 + l3 = 1) :
    mn ≤ l1 * a + l2 * b + l3 * c ∧ l1 * a + l2 * b + l3 * c ≤ mx := by
  have emn : l1 * mn + l2 * mn + l3 * mn = mn := by
    have h : l1 * mn + l2 * mn + l3 * mn = (l1 + l2 + l3) * mn := by ring
    rw [h, hsum, one_mul]
  have emx : l1 * mx + l2 * mx + l3 * mx = mx := by
    have h : l1 * mx + l2 * mx + l3 * mx = (l1 + l2 + l3) * mx := by ring
    rw [h, hsum, one_mul]
  constructor
  · have p1 := mul_le_mul_of_nonneg_left ha1 h1
    have p2 := mul_le_mul_of_nonneg_left hb1 h2
    have p3 := mul_le_mul_of_nonneg_left hc1 h3
    linarith
  · have p1 := mul_le_mul_of_nonneg_left ha2 h1
    have p2 := mul_le_mul_of_nonneg_left hb2 h2
    have p3 := mul_le_mul_of_nonneg_left hc2 h3
    linarith

/-- A convex combination of three points inside an AABB stays inside. -/
theorem convex_in_box (box : Aabb) (a b c : Vec3) (l1 l2 l3 : ℚ)
    (ha : containsPoint box a = true) (hb : containsPoint box b = true)
    (hc : containsPoint box c = true)
    (h1 : 0 ≤ l1) (h2 : 0 ≤ l2) (h3 : 0 ≤ l3) (hsum : l1 + l2 + l3 = 1) :
    containsPoint box (l1 * a + l2 * b + l3 * c) = true := by
  simp only [containsPoint, decide_eq_true_eq] at ha hb hc ⊢
  obtain ⟨hax1, hax2, hay1, hay2, haz1, haz2⟩ := ha
  obtain ⟨hbx1, hbx2, hby1, hby2, hbz1, hbz2⟩ := hb
  obtain ⟨hcx1, hcx2, hcy1, hcy2, hcz1, hcz2⟩ := hc
  have hx := convex3_bound box.min.x box.max.x a.x b.x c.x l1 l2 l3
    hax1 hax2 hbx1 hbx2 hcx1 hcx2 h1 h2 h3 hsum
  have hy := convex3_bound box.min.y box.max.y a.y b.y c.y l1 l2 l3
    hay1 hay2 hby1 hby2 hcy1 hcy2 h1 h2 h3 hsum
  have hz := convex3_bound box.min.z box.max.z a.z b.z c.z l1 l2 l3
    haz1 haz2 hbz1 hbz2 hcz1 hcz2 h1 h2 h3 hsum
  simp only [Vec3.add_x, Vec3.add_y, Vec3.add_z, Vec3.smul_x, Vec3.smul_y,
    Vec3.smul_z]
  exact ⟨hx.1, hx.2, hy.1, hy.2, hz.1, hz.2⟩

/-- The accepted Möller–Trumbore hit point (on the ray, at parameter
`mtT`) lies inside any AABB containing the triangle's vertices. -/
theorem mt_hitpoint_in_box (ray : Ray) (box : Aabb) (tri : Positions)
    (hcont : containsTriangle box tri = true) (hacc : mtAccept ray tri) :
    containsPoint box (ray.origin + mtT ray tri * ray.direction) = true := by
  have hdet := mtAccept_det_ne hacc
  rw [← mt_point_on_ray ray tri hdet, mt_point_convex]
  obtain ⟨hu0, hu1, hv0, huv⟩ := mtAccept_bary hacc
  simp only [containsTriangle, Bool.and_eq_true] at hcont
  exact convex_in_box box tri.p0 tri.p1 tri.p2 _ _ _ hcont.1.1 hcont.1.2
    hcont.2 (by linarith) hu0 hv0 (by ring)

theorem wf_containsTriangle {nodes : ℕ → BvhNode} {positions : ℕ → Positions}
    {i : ℕ} {t : BvhTree} {j : ℕ}
    (hwf : wfBvh nodes positions i t = true) (hj : j ∈ trisOf nodes i t) :
    containsTriangle (nodes i).aabb (positions j) = true := by
  cases t with
  | leaf =>
    rw [wfBvh, List.all_eq_true] at hwf
    exact hwf j hj
  | node l r =>
    rw [wfBvh, Bool.and_eq_true, Bool.and_eq_true] at hwf
    rw [List.all_eq_true] at hwf
    exact hwf.1.1 j hj

section Invariant

variable (sq : ℚ → ℚ) (offsetP : Vec3 → Vec3 → Vec3)
variable (nodes : ℕ → BvhNode) (positions : ℕ → Positions)
variable (vattrs : ℕ → VertexAttributes)
variable (ray : Ray)

/-- The Möller–Trumbore routine accepts the triangle with a root below
the threshold `τ`. -/
def hitBefore (tri : Positions) (τ : ℚ) : Prop :=
  mtAccept ray tri ∧ mtT ray tri < τ

instance (tri : Positions) (τ : ℚ) : Decidable (hitBefore ray tri τ) := by
  unfold hitBefore
  infer_instance

/-- The intersection record the traversal writes for triangle index `j`. -/
def bestHit (j : ℕ) : Intersection :=
  mkIntersection vattrs j (mtHit sq offsetP ray (positions j))

/-- How a traversal segment visiting exactly the candidate triangles `L`
transforms the loop state: `didIntersect` becomes true exactly if some
candidate is hit before the incoming `tmax`; in that case the final
`tmax` and output intersection belong to a candidate of minimal root;
otherwise `tmax` and the output are untouched. -/
def Improves (L : List ℕ) (st st' : BvhLoopState) : Prop :=
  (st'.didIntersect = true ↔
    st.didIntersect = true ∨ ∃ j ∈ L, hitBefore ray (positions j) st.tmax) ∧
  ((∃ j ∈ L, hitBefore ray (positions j) st.tmax) →
    ∃ j ∈ L, hitBefore ray (positions j) st.tmax ∧
      st'.tmax = mtT ray (positions j) ∧
      st'.hit = bestHit sq offsetP positions vattrs ray j ∧
      ∀ k ∈ L, hitBefore ray (positions k) st.tmax →
        st'.tmax ≤ mtT ray (positions k)) ∧
  ((¬∃ j ∈ L, hitBefore ray (positions j) st.tmax) →
    st'.tmax = st.tmax ∧ st'.hit = st.hit)

/-- Pairwise structural and geometric well-formedness for the stack of
pending subtree roots. -/
def StackOK (stack : List ℕ) (ts : List BvhTree) : Prop :=
  List.Forall₂ (fun i tr => represents nodes i tr = true ∧
    wfBvh nodes positions i tr = true) stack ts

variable {sq offsetP nodes positions vattrs ray}

theorem Improves.tmax_le {L : List ℕ} {st st' : BvhLoopState}
    (h : Improves sq offsetP positions vattrs ray L st st') :
    st'.tmax ≤ st.tmax := by
  obtain ⟨-, hsome, hnone⟩ := h
  by_cases hE : ∃ j ∈ L, hitBefore ray (positions j) st.tmax
  · obtain ⟨j, -, hb, heq, -, -⟩ := hsome hE
    exact le_of_lt (heq ▸ hb.2)
  · exact le_of_eq (hnone hE).1

/-- A segment that hits no candidate leaves the state untouched. -/
theorem Improves.of_no_hit {L : List ℕ} {st : BvhLoopState}
    (h : ∀ j ∈ L, ¬hitBefore ray (positions j) st.tmax) :
    Improves sq offsetP positions vattrs ray L st st := by
  refine ⟨by simp only [iff_self_or]; rintro ⟨j, hj, hb⟩; exact absurd hb (h j hj), ?_, ?_⟩
  · rintro ⟨j, hj, hb⟩
    exact absurd hb (h j hj)
  · exact fun _ => ⟨rfl, rfl⟩

theorem Improves.nil (st : BvhLoopState) :
    Improves sq offsetP positions vattrs ray [] st st :=
  Improves.of_no_hit (by simp)

/-- `Improves` only reads the non-ghost fields of the starting state. -/
theorem Improves.congr_start {L : List ℕ} {s s' r' : BvhLoopState}
    (ht : s.tmax = s'.tmax) (hd : s.didIntersect = s'.didIntersect)
    (hh : s.hit = s'.hit)
    (h : Improves sq offsetP positions vattrs ray L s' r') :
    Improves sq offsetP positions vattrs ray L s r' := by
  unfold Improves at h ⊢
  rw [ht, hd, hh]
  exact h

/-- Membership-invariance of `Improves`. -/
theorem Improves.mem_congr {L L' : List ℕ} {st st' : BvhLoopState}
    (hmem : ∀ j, j ∈ L ↔ j ∈ L')
    (h : Improves sq offsetP positions vattrs ray L st st') :
    Improves sq offsetP positions vattrs ray L' st st' := by
  obtain ⟨hdid, hsome, hnone⟩ := h
  refine ⟨?_, ?_, ?_⟩
  · rw [hdid]
    constructor
    · rintro (hd | ⟨j, hj, hb⟩)
      · exact Or.inl hd
      · exact Or.inr ⟨j, (hmem j).mp hj, hb⟩
    · rintro (hd | ⟨j, hj, hb⟩)
      · exact Or.inl hd
      · exact Or.inr ⟨j, (hmem j).mpr hj, hb⟩
  · rintro ⟨j, hj, hb⟩
    obtain ⟨i, hi, hbi, he1, he2, hmin⟩ := hsome ⟨j, (hmem j).mpr hj, hb⟩
    exact ⟨i, (hmem i).mp hi, hbi, he1, he2,
      fun k hk hbk => hmin k ((hmem k).mpr hk) hbk⟩
  · intro hE
    exact hnone fun ⟨j, hj, hb⟩ => hE ⟨j, (hmem j).mp hj, hb⟩

/-- Sequential composition of traversal segments. -/
theorem Improves.comp {L1 L2 : List ℕ} {st st1 st2 : BvhLoopState}
    (h1 : Improves sq offsetP positions vattrs ray L1 st st1)
    (h2 : Improves sq offsetP positions vattrs ray L2 st1 st2) :
    Improves sq offsetP positions vattrs ray (L1 ++ L2) st st2 := by
  have htle : st1.tmax ≤ st.tmax := h1.tmax_le
  obtain ⟨h1did, h1some, h1none⟩ := h1
  obtain ⟨h2did, h2some, h2none⟩ := h2
  have hEiff : (∃ j ∈ L1 ++ L2, hitBefore ray (positions j) st.tmax) ↔
      (∃ j ∈ L1, hitBefore ray (positions j) st.tmax) ∨
        (∃ j ∈ L2, hitBefore ray (positions j) st1.tmax) := by
    constructor
    · rintro ⟨j, hj, hb⟩
      rcases List.mem_append.mp hj with hj1 | hj2
      · exact Or.inl ⟨j, hj1, hb⟩
      · by_cases hlt : mtT ray (positions j) < st1.tmax
        · exact Or.inr ⟨j, hj2, hb.1, hlt⟩
        · left
          by_contra hE1
          have := (h1none hE1).1
          exact hlt (this ▸ hb.2)
    · rintro (⟨j, hj, hb⟩ | ⟨j, hj, hb⟩)
      · exact ⟨j, List.mem_append.mpr (Or.inl hj), hb⟩
      · exact ⟨j, List.mem_append.mpr (Or.inr hj), hb.1,
          lt_of_lt_of_le hb.2 htle⟩
  refine ⟨?_, ?_, ?_⟩
  · rw [h2did, h1did, hEiff, or_assoc]
  · intro hE
    rcases (hEiff.mp hE) with hE1 | hE2
    all_goals by_cases hE2' : ∃ j ∈ L2, hitBefore ray (positions j) st1.tmax
    case pos | pos =>
      obtain ⟨j, hj, hbj, he1, he2, hmin⟩ := h2some hE2'
      refine ⟨j, List.mem_append.mpr (Or.inr hj),
        ⟨hbj.1, lt_of_lt_of_le hbj.2 htle⟩, he1, he2, ?_⟩
      intro k hk hbk
      rcases List.mem_append.mp hk with hk1 | hk2
      · by_cases hEk1 : ∃ i ∈ L1, hitBefore ray (positions i) st.tmax
        · obtain ⟨i, -, -, hi1, -, hmin1⟩ := h1some hEk1
          have h3 : st1.tmax ≤ mtT ray (positions k) := hi1 ▸ hmin1 k hk1 hbk
          exact le_trans (le_of_lt (he1 ▸ hbj.2)) h3
        · exact absurd ⟨k, hk1, hbk⟩ hEk1
      · by_cases hlt : mtT ray (positions k) < st1.tmax
        · exact hmin k hk2 ⟨hbk.1, hlt⟩
        · exact le_trans (le_of_lt (he1 ▸ hbj.2)) (not_lt.mp hlt)
    case neg =>
      obtain ⟨j, hj, hbj, he1, he2, hmin⟩ := h1some hE1
      have hfix := h2none hE2'
      refine ⟨j, List.mem_append.mpr (Or.inl hj), hbj, hfix.1 ▸ he1,
        hfix.2 ▸ he2, ?_⟩
      intro k hk hbk
      rcases List.mem_append.mp hk with hk1 | hk2
      · exact hfix.1 ▸ hmin k hk1 hbk
      · have : ¬(mtAccept ray (positions k) ∧
            mtT ray (positions k) < st1.tmax) :=
          fun hc => hE2' ⟨k, hk2, hc⟩
        have hge : st1.tmax ≤ mtT ray (positions k) := by
          by_contra hcon
          exact this ⟨hbk.1, not_le.mp hcon⟩
        exact hfix.1 ▸ hge
    case neg =>
      obtain ⟨j, hj, hb⟩ := hE2
      exact absurd ⟨j, hj, hb⟩ hE2'
  · intro hE
    have hnE : ¬((∃ j ∈ L1, hitBefore ray (positions j) st.tmax) ∨
        (∃ j ∈ L2, hitBefore ray (positions j) st1.tmax)) :=
      fun hc => hE (hEiff.mpr hc)
    push_neg at hnE
    have e1 := h1none (by
      rintro ⟨j, hj, hb⟩
      exact hnE.1 j hj hb)
    have e2 := h2none (by
      rintro ⟨j, hj, hb⟩
      exact hnE.2 j hj hb)
    exact ⟨e2.1.trans e1.1, e2.2.trans e1.2⟩

theorem triStep_improves (off idx : ℕ) (st : BvhLoopState) :
    Improves sq offsetP positions vattrs ray [off + idx] st
      (triStep sq offsetP positions vattrs ray off st idx) := by
  unfold triStep
  rw [rayIntersectTriangle_eq]
  by_cases h : mtAccept ray (positions (off + idx)) ∧
      mtT ray (positions (off + idx)) < st.tmax
  · rw [if_pos h]
    refine ⟨?_, ?_, ?_⟩
    · simp only [List.mem_singleton]
      constructor
      · intro _
        exact Or.inr ⟨off + idx, rfl, h⟩
      · intro _
        trivial
    · intro _
      refine ⟨off + idx, List.mem_singleton.mpr rfl, h, rfl, rfl, ?_⟩
      intro k hk hbk
      rw [List.mem_singleton.mp hk]
      exact le_refl _
    · intro hn
      exact absurd ⟨off + idx, List.mem_singleton.mpr rfl, h⟩ hn
  · rw [if_neg h]
    apply Improves.of_no_hit
    intro j hj
    rw [List.mem_singleton.mp hj]
    exact h

theorem triStep_maxToVisit (off idx : ℕ) (st : BvhLoopState) :
    (triStep sq offsetP positions vattrs ray off st idx).maxToVisit =
      st.maxToVisit := by
  unfold triStep
  cases rayIntersectTriangle sq offsetP ray (positions (off + idx))
    st.tmax <;> rfl

theorem leafLoop_improves (off cnt : ℕ) (st : BvhLoopState) :
    Improves sq offsetP positions vattrs ray
      ((List.range cnt).map (off + ·)) st
      (leafLoop sq offsetP positions vattrs ray off cnt st) := by
  induction cnt generalizing st with
  | zero => exact Improves.nil st
  | succ n ihn =>
    rw [List.range_succ, List.map_append]
    unfold leafLoop at ihn ⊢
    rw [List.range_succ, List.foldl_append]
    exact (ihn st).comp (triStep_improves off n _)

theorem leafLoop_maxToVisit (off cnt : ℕ) (st : BvhLoopState) :
    (leafLoop sq offsetP positions vattrs ray off cnt st).maxToVisit =
      st.maxToVisit := by
  induction cnt generalizing st with
  | zero => rfl
  | succ n ihn =>
    unfold leafLoop at ihn ⊢
    rw [List.range_succ, List.foldl_append]
    rw [List.foldl_cons, List.foldl_nil, triStep_maxToVisit]
    exact ihn st

theorem no_hit_of_aabb_fail
    (hdx : ray.direction.x ≠ 0) (hdy : ray.direction.y ≠ 0)
    (hdz : ray.direction.z ≠ 0) {i : ℕ} {t : BvhTree} {τ : ℚ}
    (hwf : wfBvh nodes positions i t = true)
    (hfail : rayIntersectAabb (rayAabbIntersector ray) (nodes i).aabb τ =
      false) :
    ∀ j ∈ trisOf nodes i t, ¬hitBefore ray (positions j) τ := by
  rintro j hj ⟨hacc, hlt⟩
  have hcont := wf_containsTriangle hwf hj
  have hpt := mt_hitpoint_in_box ray _ _ hcont hacc
  have ht0 : 0 < mtT ray (positions j) := lt_trans EPSILON_pos hacc.2.2.2
  have hpass := rayIntersectAabb_conservative ray (nodes i).aabb τ
    (mtT ray (positions j)) hdx hdy hdz hpt ht0 hlt
  exact Bool.false_ne_true (hfail ▸ hpass)

/-- Main loop invariant of the closest-hit traversal: with enough fuel,
the traversal starting at a well-formed subtree with a well-formed stack
improves the state by exactly the candidate triangles of the subtree and
the stack. -/
theorem rayIntersectBvhGo_improves
    (hdx : ray.direction.x ≠ 0) (hdy : ray.direction.y ≠ 0)
    (hdz : ray.direction.z ≠ 0) :
    ∀ (fuel : ℕ) (stack : List ℕ) (current : ℕ) (st : BvhLoopState)
      (t : BvhTree) (ts : List BvhTree),
      represents nodes current t = true →
      wfBvh nodes positions current t = true →
      StackOK nodes positions stack ts →
      t.size + (ts.map BvhTree.size).sum ≤ fuel →
      Improves sq offsetP positions vattrs ray
        (trisOf nodes current t ++ stackTris nodes stack ts) st
        (rayIntersectBvhGo sq offsetP nodes positions vattrs ray
          (rayAabbIntersector ray) fuel stack current st) := by
  intro fuel
  induction fuel with
  | zero =>
    intro stack current st t ts _ _ _ hsz
    have := t.size_pos
    omega
  | succ f ih =>
    intro stack current st t ts hrep hwf hstk hsz
    rw [rayIntersectBvhGo.eq_def]
    simp only []
    by_cases haabb : rayIntersectAabb (rayAabbIntersector ray)
        (nodes current).aabb st.tmax = true
    · rw [if_pos haabb]
      cases t with
      | leaf =>
        have hcnt : 0 < (nodes current).triangleCount := by
          simpa [represents] using hrep
        rw [if_pos hcnt]
        have hleaf := @leafLoop_improves sq offsetP positions vattrs ray
          (nodes current).trianglesOffset (nodes current).triangleCount st
        cases hstk with
        | nil =>
          refine Improves.mem_congr (fun j => ?_) hleaf
          simp [trisOf, stackTris]
        | @cons top t' rest ts' hpair htail =>
          have hsz' : t'.size + (ts'.map BvhTree.size).sum ≤ f := by
            simp only [List.map_cons, List.sum_cons, BvhTree.size] at hsz ⊢
            omega
          have hrest := ih rest top
            (leafLoop sq offsetP positions vattrs ray
              (nodes current).trianglesOffset (nodes current).triangleCount
              st) t' ts' hpair.1 hpair.2 htail hsz'
          refine Improves.mem_congr (fun j => ?_) (hleaf.comp hrest)
          simp [trisOf, stackTris, List.mem_append]
      | node l r =>
        have hrep' : (nodes current).triangleCount = 0 ∧
            represents nodes (current + 1) l = true ∧
            represents nodes (nodes current).secondChildOffset r = true := by
          simpa [represents, Bool.and_eq_true, and_assoc] using hrep
        have hwf' : wfBvh nodes positions (current + 1) l = true ∧
            wfBvh nodes positions (nodes current).secondChildOffset r =
              true := by
          rw [wfBvh, Bool.and_eq_true, Bool.and_eq_true] at hwf
          exact ⟨hwf.1.2, hwf.2⟩
        rw [if_neg (by omega : ¬0 < (nodes current).triangleCount)]
        have hszl : r.size + ((l :: ts).map BvhTree.size).sum ≤ f := by
          simp only [List.map_cons, List.sum_cons, BvhTree.size] at hsz ⊢
          omega
        have hszr : l.size + ((r :: ts).map BvhTree.size).sum ≤ f := by
          simp only [List.map_cons, List.sum_cons, BvhTree.size] at hsz ⊢
          omega
        by_cases hneg : (rayAabbIntersector ray).dirNegAt
            (nodes current).splitAxis = 1
        · rw [if_pos hneg]
          have hrec := ih ((current + 1) :: stack)
            (nodes current).secondChildOffset
            { st with maxToVisit := max st.maxToVisit (stack.length + 1) }
            r (l :: ts) hrep'.2.2 hwf'.2
            (List.Forall₂.cons ⟨hrep'.2.1, hwf'.1⟩ hstk) hszl
          refine Improves.mem_congr (fun j => ?_)
            (Improves.congr_start rfl rfl rfl hrec)
          simp only [trisOf, stackTris, List.zipWith_cons_cons,
            List.flatten_cons, List.mem_append]
          tauto
        · rw [if_neg hneg]
          have hrec := ih ((nodes current).secondChildOffset :: stack)
            (current + 1)
            { st with maxToVisit := max st.maxToVisit (stack.length + 1) }
            l (r :: ts) hrep'.2.1 hwf'.1
            (List.Forall₂.cons ⟨hrep'.2.2, hwf'.2⟩ hstk) hszr
          refine Improves.mem_congr (fun j => ?_)
            (Improves.congr_start rfl rfl rfl hrec)
          simp only [trisOf, stackTris, List.zipWith_cons_cons,
            List.flatten_cons, List.mem_append]
          tauto
    · rw [if_neg haabb]
      have hfail : rayIntersectAabb (rayAabbIntersector ray)
          (nodes current).aabb st.tmax = false := by
        simpa using haabb
      have hskip : Improves sq offsetP positions vattrs ray
          (trisOf nodes current t) st st :=
        Improves.of_no_hit (no_hit_of_aabb_fail hdx hdy hdz hwf hfail)
      cases hstk with
      | nil =>
        refine Improves.mem_congr (fun j => ?_) hskip
        simp [stackTris]
      | @cons top t' rest ts' hpair htail =>
        have hsz' : t'.size + (ts'.map BvhTree.size).sum ≤ f := by
          have := t.size_pos
          simp only [List.map_cons, List.sum_cons] at hsz ⊢
          omega
        have hrest := ih rest top st t' ts' hpair.1 hpair.2 htail hsz'
        refine Improves.mem_congr (fun j => ?_) (hskip.comp hrest)
        simp [stackTris, List.mem_append]

theorem shadowLeafAnyHit_iff (rayTMax : ℚ) (off cnt : ℕ) :
    shadowLeafAnyHit sq offsetP positions ray rayTMax off cnt = true ↔
      ∃ idx < cnt, hitBefore ray (positions (off + idx)) rayTMax := by
  unfold shadowLeafAnyHit
  rw [List.any_eq_true]
  constructor
  · rintro ⟨idx, hidx, hhit⟩
    exact ⟨idx, List.mem_range.mp hidx,
      (rayIntersectTriangle_isSome sq offsetP ray _ rayTMax).mp hhit⟩
  · rintro ⟨idx, hidx, hhit⟩
    exact ⟨idx, List.mem_range.mpr hidx,
      (rayIntersectTriangle_isSome sq offsetP ray _ rayTMax).mpr hhit⟩

/-- Completeness of the any-hit traversal: if any candidate triangle of
the remaining subtrees is hit before `rayTMax`, the shadow traversal
returns visibility `0`. -/
theorem shadowRayGo_complete (rayTMax : ℚ)
    (hdx : ray.direction.x ≠ 0) (hdy : ray.direction.y ≠ 0)
    (hdz : ray.direction.z ≠ 0) :
    ∀ (fuel : ℕ) (stack : List ℕ) (current : ℕ) (ms : ℕ)
      (t : BvhTree) (ts : List BvhTree),
      represents nodes current t = true →
      wfBvh nodes positions current t = true →
      StackOK nodes positions stack ts →
      t.size + (ts.map BvhTree.size).sum ≤ fuel →
      (∃ j ∈ trisOf nodes current t ++ stackTris nodes stack ts,
        hitBefore ray (positions j) rayTMax) →
      (shadowRayGo sq offsetP nodes positions ray (rayAabbIntersector ray)
        rayTMax fuel stack current ms).visibility = 0 := by
  intro fuel
  induction fuel with
  | zero =>
    intro stack current ms t ts _ _ _ hsz _
    have := t.size_pos
    omega
  | succ f ih =>
    intro stack current ms t ts hrep hwf hstk hsz hex
    rw [shadowRayGo.eq_def]
    simp only []
    by_cases haabb : rayIntersectAabb (rayAabbIntersector ray)
        (nodes current).aabb rayTMax = true
    · rw [if_pos haabb]
      cases t with
      | leaf =>
        have hcnt : 0 < (nodes current).triangleCount := by
          simpa [represents] using hrep
        rw [if_pos hcnt]
        by_cases hleaf : ∃ j ∈ trisOf nodes current BvhTree.leaf,
            hitBefore ray (positions j) rayTMax
        · obtain ⟨j, hj, hb⟩ := hleaf
          simp only [trisOf, List.mem_map, List.mem_range] at hj
          obtain ⟨idx, hidx, rfl⟩ := hj
          rw [if_pos ((shadowLeafAnyHit_iff rayTMax _ _).mpr
            ⟨idx, hidx, hb⟩)]
        · obtain ⟨j, hj, hb⟩ := hex
          rcases List.mem_append.mp hj with hj1 | hj2
          · exact absurd ⟨j, hj1, hb⟩ hleaf
          · cases hstk with
            | nil => simp [stackTris] at hj2
            | @cons top t' rest ts' hpair htail =>
              split_ifs with hany
              · rfl
              · simp only [stackTris, List.zipWith_cons_cons,
                  List.flatten_cons, List.mem_append] at hj2
                have hsz' : t'.size + (ts'.map BvhTree.size).sum ≤ f := by
                  simp only [List.map_cons, List.sum_cons,
                    BvhTree.size] at hsz ⊢
                  omega
                refine ih rest top ms t' ts' hpair.1 hpair.2 htail hsz' ?_
                rcases hj2 with hj2 | hj2
                · exact ⟨j, List.mem_append.mpr (Or.inl hj2), hb⟩
                · exact ⟨j, List.mem_append.mpr (Or.inr hj2), hb⟩
      | node l r =>
        have hrep' : (nodes current).triangleCount = 0 ∧
            represents nodes (current + 1) l = true ∧
            represents nodes (nodes current).secondChildOffset r = true := by
          simpa [represents, Bool.and_eq_true, and_assoc] using hrep
        have hwf' : wfBvh nodes positions (current + 1) l = true ∧
            wfBvh nodes positions (nodes current).secondChildOffset r =
              true := by
          rw [wfBvh, Bool.and_eq_true, Bool.and_eq_true] at hwf
          exact ⟨hwf.1.2, hwf.2⟩
        rw [if_neg (by omega : ¬0 < (nodes current).triangleCount)]
        obtain ⟨j, hj, hb⟩ := hex
        simp only [trisOf, stackTris, List.mem_append] at hj
        by_cases hneg : (rayAabbIntersector ray).dirNegAt
            (nodes current).splitAxis = 1
        · rw [if_pos hneg]
          have hsz' : r.size + ((l :: ts).map BvhTree.size).sum ≤ f := by
            simp only [List.map_cons, List.sum_cons, BvhTree.size] at hsz ⊢
            omega
          refine ih ((current + 1) :: stack) (nodes current).secondChildOffset
            _ r (l :: ts) hrep'.2.2 hwf'.2
            (List.Forall₂.cons ⟨hrep'.2.1, hwf'.1⟩ hstk) hsz' ?_
          refine ⟨j, ?_, hb⟩
          simp only [stackTris, List.zipWith_cons_cons, List.flatten_cons,
            List.mem_append]
          tauto
        · rw [if_neg hneg]
          have hsz' : l.size + ((r :: ts).map BvhTree.size).sum ≤ f := by
            simp only [List.map_cons, List.sum_cons, BvhTree.size] at hsz ⊢
            omega
          refine ih ((nodes current).secondChildOffset :: stack) (current + 1)
            _ l (r :: ts) hrep'.2.1 hwf'.1
            (List.Forall₂.cons ⟨hrep'.2.2, hwf'.2⟩ hstk) hsz' ?_
          refine ⟨j, ?_, hb⟩
          simp only [stackTris, List.zipWith_cons_cons, List.flatten_cons,
            List.mem_append]
          tauto
    · rw [if_neg haabb]
      have hfail : rayIntersectAabb (rayAabbIntersector ray)
          (nodes current).aabb rayTMax = false := by
        simpa using haabb
      have hnone := no_hit_of_aabb_fail hdx hdy hdz hwf hfail
      obtain ⟨j, hj, hb⟩ := hex
      rcases List.mem_append.mp hj with hj1 | hj2
      · exact absurd hb (hnone j hj1)
      · cases hstk with
        | nil => simp [stackTris] at hj2
        | @cons top t' rest ts' hpair htail =>
          have hsz' : t'.size + (ts'.map BvhTree.size).sum ≤ f := by
            have := t.size_pos
            simp only [List.map_cons, List.sum_cons] at hsz ⊢
            omega
          exact ih rest top ms t' ts' hpair.1 hpair.2 htail hsz'
            ⟨j, hj2, hb⟩

end Invariant

/-- Depth budget for a stack of pending subtrees: the `k`-th entry from
the top may have interior depth at most `D` minus the number of entries
up to and including it. -/
def DepthsOK (D : ℕ) : List BvhTree → Prop
  | [] => True
  | t :: ts => t.interiorDepth + (t :: ts).length ≤ D ∧ DepthsOK D ts

section StackBound

variable {sq : ℚ → ℚ} {offsetP : Vec3 → Vec3 → Vec3}
variable {nodes : ℕ → BvhNode} {positions : ℕ → Positions}
variable {vattrs : ℕ → VertexAttributes}
variable {ray : Ray}

/-- The closest-hit traversal's stack index never exceeds the interior
depth budget `D`. -/
theorem rayIntersectBvhGo_maxToVisit (intr : RayAabbIntersector) (D : ℕ) :
    ∀ (fuel : ℕ) (stack : List ℕ) (current : ℕ) (st : BvhLoopState)
      (t : BvhTree) (ts : List BvhTree),
      represents nodes current t = true →
      List.Forall₂ (fun i tr => represents nodes i tr = true) stack ts →
      t.interiorDepth + stack.length ≤ D →
      DepthsOK D ts →
      st.maxToVisit ≤ D →
      (rayIntersectBvhGo sq offsetP nodes positions vattrs ray intr fuel
        stack current st).maxToVisit ≤ D := by
  intro fuel
  induction fuel with
  | zero =>
    intro stack current st t ts _ _ _ _ hms
    exact hms
  | succ f ih =>
    intro stack current st t ts hrep hstk hdep hts hms
    have hlen : stack.length = ts.length := hstk.length_eq
    rw [rayIntersectBvhGo.eq_def]
    simp only []
    by_cases haabb : rayIntersectAabb intr (nodes current).aabb st.tmax =
        true
    · rw [if_pos haabb]
      cases t with
      | leaf =>
        have hcnt : 0 < (nodes current).triangleCount := by
          simpa [represents] using hrep
        rw [if_pos hcnt]
        have hms1 : (leafLoop sq offsetP positions vattrs ray
            (nodes current).trianglesOffset (nodes current).triangleCount
            st).maxToVisit ≤ D := by
          rw [leafLoop_maxToVisit]
          exact hms
        cases hstk with
        | nil => exact hms1
        | @cons top t' rest ts' hpair htail =>
          have hlen' : rest.length = ts'.length := htail.length_eq
          exact ih rest top _ t' ts' hpair htail
            (by
              simp only [DepthsOK, List.length_cons] at hts
              omega) hts.2 hms1
      | node l r =>
        have hrep' : (nodes current).triangleCount = 0 ∧
            represents nodes (current + 1) l = true ∧
            represents nodes (nodes current).secondChildOffset r = true := by
          simpa [represents, Bool.and_eq_true, and_assoc] using hrep
        rw [if_neg (by omega : ¬0 < (nodes current).triangleCount)]
        have hdepth : 1 + max l.interiorDepth r.interiorDepth +
            stack.length ≤ D := by
          simpa [BvhTree.interiorDepth] using hdep
        have hmsP : max st.maxToVisit (stack.length + 1) ≤ D := by
          omega
        by_cases hneg : intr.dirNegAt (nodes current).splitAxis = 1
        · rw [if_pos hneg]
          refine ih ((current + 1) :: stack) (nodes current).secondChildOffset
            _ r (l :: ts) hrep'.2.2
            (List.Forall₂.cons hrep'.2.1 hstk) ?_ ?_ hmsP
          · simp only [List.length_cons]
            omega
          · refine ⟨?_, hts⟩
            simp only [List.length_cons]
            omega
        · rw [if_neg hneg]
          refine ih ((nodes current).secondChildOffset :: stack) (current + 1)
            _ l (r :: ts) hrep'.2.1
            (List.Forall₂.cons hrep'.2.2 hstk) ?_ ?_ hmsP
          · simp only [List.length_cons]
            omega
          · refine ⟨?_, hts⟩
            simp only [List.length_cons]
            omega
    · rw [if_neg haabb]
      cases hstk with
      | nil => exact hms
      | @cons top t' rest ts' hpair htail =>
        have hlen' : rest.length = ts'.length := htail.length_eq
        exact ih rest top st t' ts' hpair htail
          (by
            simp only [DepthsOK, List.length_cons] at hts
            omega) hts.2 hms

/-- The any-hit traversal's stack index never exceeds the interior depth
budget `D`. -/
theorem shadowRayGo_maxToVisit (intr : RayAabbIntersector) (rayTMax : ℚ)
    (D : ℕ) :
    ∀ (fuel : ℕ) (stack : List ℕ) (current : ℕ) (ms : ℕ)
      (t : BvhTree) (ts : List BvhTree),
      represents nodes current t = true →
      List.Forall₂ (fun i tr => represents nodes i tr = true) stack ts →
      t.interiorDepth + stack.length ≤ D →
      DepthsOK D ts →
      ms ≤ D →
      (shadowRayGo sq offsetP nodes positions ray intr rayTMax fuel stack
        current ms).maxToVisit ≤ D := by
  intro fuel
  induction fuel with
  | zero =>
    intro stack current ms t ts _ _ _ _ hms
    exact hms
  | succ f ih =>
    intro stack current ms t ts hrep hstk hdep hts hms
    have hlen : stack.length = ts.length := hstk.length_eq
    rw [shadowRayGo.eq_def]
    simp only []
    by_cases haabb : rayIntersectAabb intr (nodes current).aabb rayTMax =
        true
    · rw [if_pos haabb]
      cases t with
      | leaf =>
        have hcnt : 0 < (nodes current).triangleCount := by
          simpa [represents] using hrep
        rw [if_pos hcnt]
        split_ifs with hany
        · exact hms
        · cases hstk with
          | nil => exact hms
          | @cons top t' rest ts' hpair htail =>
            have hlen' : rest.length = ts'.length := htail.length_eq
            exact ih rest top ms t' ts' hpair htail
              (by
                simp only [DepthsOK, List.length_cons] at hts
                omega) hts.2 hms
      | node l r =>
        have hrep' : (nodes current).triangleCount = 0 ∧
            represents nodes (current + 1) l = true ∧
            represents nodes (nodes current).secondChildOffset r = true := by
          simpa [represents, Bool.and_eq_true, and_assoc] using hrep
        rw [if_neg (by omega : ¬0 < (nodes current).triangleCount)]
        have hdepth : 1 + max l.interiorDepth r.interiorDepth +
            stack.length ≤ D := by
          simpa [BvhTree.interiorDepth] using hdep
        have hmsP : max ms (stack.length + 1) ≤ D := by
          omega
        by_cases hneg : intr.dirNegAt (nodes current).splitAxis = 1
        · rw [if_pos hneg]
          refine ih ((current + 1) :: stack) (nodes current).secondChildOffset
            _ r (l :: ts) hrep'.2.2
            (List.Forall₂.cons hrep'.2.1 hstk) ?_ ?_ hmsP
          · simp only [List.length_cons]
            omega
          · refine ⟨?_, hts⟩
            simp only [List.length_cons]
            omega
        · rw [if_neg hneg]
          refine ih ((nodes current).secondChildOffset :: stack) (current + 1)
            _ l (r :: ts) hrep'.2.1
            (List.Forall₂.cons hrep'.2.2 hstk) ?_ ?_ hmsP
          · simp only [List.length_cons]
            omega
          · refine ⟨?_, hts⟩
            simp only [List.length_cons]
            omega
    · rw [if_neg haabb]
      cases hstk with
      | nil => exact hms
      | @cons top t' rest ts' hpair htail =>
        have hlen' : rest.length = ts'.length := htail.length_eq
        exact ih rest top ms t' ts' hpair htail
          (by
            simp only [DepthsOK, List.length_cons] at hts
            omega) hts.2 hms

end StackBound

/-- The `float` value of `(float)M_PI` (`0x40490FDB`), used by the C sky
model's validation bound. -/
def PI_F32 : ℚ := 13176795 / 4194304

/-- Result codes of the C sky-model library's `skyStateNew`. -/
inductive SkyStateResult where
  | elevationOutOfRange : SkyStateResult
  | turbidityOutOfRange : SkyStateResult
  | albedoOutOfRange : SkyStateResult
  | success : SkyStateResult
deriving DecidableEq, Repr

/-- C `SkyParams`: elevation, turbidity and per-channel ground albedo. -/
structure SkyParams where
  elevation : ℚ
  turbidity : ℚ
  albedo0 : ℚ
  albedo1 : ℚ
  albedo2 : ℚ
deriving DecidableEq, Repr

/-- C `SkyState`: 27 fit parameters and 3 radiance scalars, modelled as
index functions (indices ≥ 27 resp. ≥ 3 are unused). -/
structure SkyStateC where
  params : ℕ → ℚ
  radiances : ℕ → ℚ

section SkyModel

-- The tabulated coefficient datasets (`params_r.h` … `radiances_b.h`)
-- are external static data supplied with the library; they are abstracted
-- as index functions.  `powQ`, `cosQ`, `expQ`, `sqQ` abstract the float
-- transcendentals `powf`, `cosf`, `expf`, `sqrtf`.
variable (paramsR paramsG paramsB radiancesR radiancesG radiancesB : ℕ → ℚ)
variable (powQ : ℚ → ℚ → ℚ) (cosQ expQ sqQ : ℚ → ℚ)

/-- C `quintic_9`: degree-5 Bézier blend over six control points laid
out with stride 9. -/
def quintic_9 (data : ℕ → ℚ) (t : ℚ) : ℚ :=
  let t2 := t * t
  let t3 := t2 * t
  let t4 := t2 * t2
  let t5 := t4 * t
  let invT := 1 - t
  let invT2 := invT * invT
  let invT3 := invT2 * invT
  let invT4 := invT2 * invT2
  let invT5 := invT4 * invT
  data 0 * invT5 + data 9 * 5 * invT4 * t + data (2 * 9) * 10 * invT3 * t2 +
    data (3 * 9) * 10 * invT2 * t3 + data (4 * 9) * 5 * invT * t4 +
    data (5 * 9) * t5

/-- C `quintic_1`: degree-5 Bézier blend over six contiguous control
points. -/
def quintic_1 (data : ℕ → ℚ) (t : ℚ) : ℚ :=
  let t2 := t * t
  let t3 := t2 * t
  let t4 := t2 * t2
  let t5 := t4 * t
  let invT := 1 - t
  let invT2 := invT * invT
  let invT3 := invT2 * invT
  let invT4 := invT2 * invT2
  let invT5 := invT4 * invT
  data 0 * invT5 + data 1 * 5 * invT4 * t + data (2 * 1) * 10 * invT3 * t2 +
    data (3 * 1) * 10 * invT2 * t3 + data (4 * 1) * 5 * invT * t4 +
    data (5 * 1) * t5

/-- C `initParams`: bilinear blend across bracketing turbidity tables and
the two albedo datasets, each evaluated by the quintic; returns the nine
output coefficients as a function of the output index. -/
def initParams (data : ℕ → ℚ) (turbidity albedo t : ℚ) : ℕ → ℚ :=
  let turbidityInt : ℕ := ⌊turbidity⌋.toNat
  let turbidityRem := turbidity - turbidityInt
  let turbidityMin := turbidityInt - 1
  let turbidityMax := min turbidityInt 9
  let s0 := (1 - albedo) * (1 - turbidityRem)
  let s1 := (1 - albedo) * turbidityRem
  let s2 := albedo * (1 - turbidityRem)
  let s3 := albedo * turbidityRem
  fun i =>
    s0 * quintic_9 (fun k => data (9 * 6 * turbidityMin + i + k)) t +
      s1 * quintic_9 (fun k => data (9 * 6 * turbidityMax + i + k)) t +
      s2 * quintic_9 (fun k => data (9 * 6 * 10 + 9 * 6 * turbidityMin + i + k)) t +
      s3 * quintic_9 (fun k => data (9 * 6 * 10 + 9 * 6 * turbidityMax + i + k)) t

/-- C `initRadiances`: the same bilinear blend for the single radiance
scalar, over tables of stride 6. -/
def initRadiances (data : ℕ → ℚ) (turbidity albedo t : ℚ) : ℚ :=
  let turbidityInt : ℕ := ⌊turbidity⌋.toNat
  let turbidityRem := turbidity - turbidityInt
  let turbidityMin := turbidityInt - 1
  let turbidityMax := min turbidityInt 9
  let s0 := (1 - albedo) * (1 - turbidityRem)
  let s1 := (1 - albedo) * turbidityRem
  let s2 := albedo * (1 - turbidityRem)
  let s3 := albedo * turbidityRem
  s0 * quintic_1 (fun k => data (6 * turbidityMin + k)) t +
    s1 * quintic_1 (fun k => data (6 * turbidityMax + k)) t +
    s2 * quintic_1 (fun k => data (6 * 10 + 6 * turbidityMin + k)) t +
    s3 * quintic_1 (fun k => data (6 * 10 + 6 * turbidityMax + k)) t

/-- C `skyStateNew`: validate elevation, turbidity and albedo (in that
order, with no clamping), then initialize the out-parameter state; the
state is passed and returned explicitly to model the C out-pointer. -/
def skyStateNew (sp : SkyParams) (skyState : SkyStateC) :
    SkyStateResult × SkyStateC :=
  if sp.elevation < 0 ∨ sp.elevation > PI_F32 then
    (SkyStateResult.elevationOutOfRange, skyState)
  else if sp.turbidity < 1 ∨ sp.turbidity > 10 then
    (SkyStateResult.turbidityOutOfRange, skyState)
  else if (sp.albedo0 < 0 ∨ sp.albedo0 > 1) ∨ (sp.albedo1 < 0 ∨ sp.albedo1 > 1) ∨
      (sp.albedo2 < 0 ∨ sp.albedo2 > 1) then
    (SkyStateResult.albedoOutOfRange, skyState)
  else
    let t := powQ (sp.elevation / (0.5 * PI_F32)) (1 / 3)
    (SkyStateResult.success,
      { params := fun k =>
          if k < 9 then initParams paramsR sp.turbidity sp.albedo0 t k
          else if k < 18 then
            initParams paramsG sp.turbidity sp.albedo1 t (k - 9)
          else if k < 27 then
            initParams paramsB sp.turbidity sp.albedo2 t (k - 18)
          else skyState.params k
        radiances := fun k =>
          if k = 0 then initRadiances radiancesR sp.turbidity sp.albedo0 t
          else if k = 1 then
            initRadiances radiancesG sp.turbidity sp.albedo1 t
          else if k = 2 then
            initRadiances radiancesB sp.turbidity sp.albedo2 t
          else skyState.radiances k })

/-- C `skyStateRadiance`: the Hošek–Wilkie radiance-distribution product
scaled by the channel's radiance scalar (the C library has no solar-disk
term). -/
def skyStateRadiance (s : SkyStateC) (theta gamma : ℚ) (channel : ℕ) :
    ℚ :=
  let r := s.radiances channel
  let p := fun k => s.params (9 * channel + k)
  let cosGamma := cosQ gamma
  let cosGamma2 := cosGamma * cosGamma
  let cosTheta := |cosQ theta|
  let expM := expQ (p 4 * gamma)
  let rayM := cosGamma2
  let mieMLhs := 1 + cosGamma2
  let mieMRhs := powQ (1 + p 8 * p 8 - 2 * p 8 * cosGamma) 1.5
  let mieM := mieMLhs / mieMRhs
  let zenith := sqQ cosTheta
  let radianceLhs := 1 + p 0 * expQ (p 1 / (cosTheta + 0.01))
  let radianceRhs := p 2 + p 3 * expM + p 5 * rayM + p 6 * mieM +
    p 7 * zenith
  r * (radianceLhs * radianceRhs)

end SkyModel

/-- WGSL `const PI = 3.1415927f`. -/
def PI_W : ℚ := 3.1415927

/-- WGSL `const FRAC_1_PI = 0.31830987f`. -/
def FRAC_1_PI : ℚ := 0.31830987

/-- WGSL `DEGREES_TO_RADIANS = PI / 180f`. -/
def DEGREES_TO_RADIANS : ℚ := PI_W / 180

/-- WGSL `TERRESTRIAL_SOLAR_RADIUS = 0.255f * DEGREES_TO_RADIANS`. -/
def TERRESTRIAL_SOLAR_RADIUS : ℚ := 0.255 * DEGREES_TO_RADIANS

/-- WGSL `const T_MAX = 10000f`. -/
def T_MAX : ℚ := 10000

/-- WGSL `struct SkyState` (deferred shader): 27 params, per-channel sky
and solar radiance scalars, and the sun direction. -/
structure SkyStateW where
  params : ℕ → ℚ
  skyRadiances : ℕ → ℚ
  solarRadiances : ℕ → ℚ
  sunDirection : Vec3

section SkyShader

variable (cosQ expQ sqQ : ℚ → ℚ) (powQ : ℚ → ℚ → ℚ)

/-- WGSL `skyRadiance`: the sky-dome radiance-distribution product plus
the solar-disk term selected by `gamma / TERRESTRIAL_SOLAR_RADIUS ≤ 1`. -/
def skyRadiance (ss : SkyStateW) (theta gamma : ℚ) (channel : ℕ) : ℚ :=
  let r := ss.skyRadiances channel
  let idx := 9 * channel
  let p0 := ss.params (idx + 0)
  let p1 := ss.params (idx + 1)
  let p2 := ss.params (idx + 2)
  let p3 := ss.params (idx + 3)
  let p4 := ss.params (idx + 4)
  let p5 := ss.params (idx + 5)
  let p6 := ss.params (idx + 6)
  let p7 := ss.params (idx + 7)
  let p8 := ss.params (idx + 8)
  let cosGamma := cosQ gamma
  let cosGamma2 := cosGamma * cosGamma
  let cosTheta := |cosQ theta|
  let expM := expQ (p4 * gamma)
  let rayM := cosGamma2
  let mieMLhs := 1 + cosGamma2
  let mieMRhs := powQ (1 + p8 * p8 - 2 * p8 * cosGamma) 1.5
  let mieM := mieMLhs / mieMRhs
  let zenith := sqQ cosTheta
  let radianceLhs := 1 + p0 * expQ (p1 / (cosTheta + 0.01))
  let radianceRhs := p2 + p3 * expM + p5 * rayM + p6 * mieM + p7 * zenith
  let radianceDist := radianceLhs * radianceRhs
  let solarDiskRadius := gamma / TERRESTRIAL_SOLAR_RADIUS
  let solarRadiance :=
    if solarDiskRadius ≤ 1 then ss.solarRadiances channel else 0
  r * radianceDist + solarRadiance

/-- The spec's "radiance distribution" factor of `skyRadiance`: zenith
falloff times forward-scattering Mie term times Rayleigh term times
horizon-brightening term, driven by the nine fit coefficients of the
channel. -/
def skyRadianceDist (ss : SkyStateW) (theta gamma : ℚ) (channel : ℕ) :
    ℚ :=
  let idx := 9 * channel
  let p0 := ss.params (idx + 0)
  let p1 := ss.params (idx + 1)
  let p2 := ss.params (idx + 2)
  let p3 := ss.params (idx + 3)
  let p4 := ss.params (idx + 4)
  let p5 := ss.params (idx + 5)
  let p6 := ss.params (idx + 6)
  let p7 := ss.params (idx + 7)
  let p8 := ss.params (idx + 8)
  let cosGamma := cosQ gamma
  let cosGamma2 := cosGamma * cosGamma
  let cosTheta := |cosQ theta|
  let expM := expQ (p4 * gamma)
  let rayM := cosGamma2
  let mieMLhs := 1 + cosGamma2
  let mieMRhs := powQ (1 + p8 * p8 - 2 * p8 * cosGamma) 1.5
  let mieM := mieMLhs / mieMRhs
  let zenith := sqQ cosTheta
  let radianceLhs := 1 + p0 * expQ (p1 / (cosTheta + 0.01))
  let radianceRhs := p2 + p3 * expM + p5 * rayM + p6 * mieM + p7 * zenith
  radianceLhs * radianceRhs

end SkyShader

/-- WGSL `struct TextureDescriptor`. -/
structure TextureDescriptor where
  width : ℕ
  height : ℕ
  offset : ℕ
deriving DecidableEq, Repr

/-- WGSL `fract(x) = x - floor(x)`. -/
def fract (x : ℚ) : ℚ := x - ⌊x⌋

/-- The texel index computed by WGSL `textureLookup`: wrap UV by
fractional part, truncate to pixel indices `j = u32(u * width)`,
`i = u32(v * height)`, and flatten as `i * width + j`. -/
def textureTexelIndex (desc : TextureDescriptor) (uv : Vec2) : ℕ :=
  let u := fract uv.x
  let v := fract uv.y
  let j := (⌊u * desc.width⌋).toNat
  let i := (⌊v * desc.height⌋).toNat
  i * desc.width + j

/-- WGSL `textureLookup`: fetch the packed BGRA texel at the wrapped UV,
unpack 8-bit components, normalize to `[0, 1]` and gamma-decode with
`pow(c, 2.2)` (the float `pow` abstracted as `powQ`). -/
def textureLookup (textures : ℕ → ℕ) (powQ : ℚ → ℚ → ℚ)
    (desc : TextureDescriptor) (uv : Vec2) : Vec3 :=
  let bgra := textures (desc.offset + textureTexelIndex desc uv)
  ⟨powQ ((((bgra >>> 16) &&& 255 : ℕ) : ℚ) / 255) 2.2,
    powQ ((((bgra >>> 8) &&& 255 : ℕ) : ℚ) / 255) 2.2,
    powQ (((bgra &&& 255 : ℕ) : ℚ) / 255) 2.2⟩

/-- WGSL `evalTexture`: look up the descriptor and sample. -/
def evalTexture (textureDescriptors : ℕ → TextureDescriptor)
    (textures : ℕ → ℕ) (powQ : ℚ → ℚ → ℚ) (textureDescriptorIdx : ℕ)
    (uv : Vec2) : Vec3 :=
  textureLookup textures powQ (textureDescriptors textureDescriptorIdx) uv

/-- WGSL `pixarOnb`: branch-free orthonormal basis around a normal,
returned as the three matrix columns `(u, v, n)`. -/
def pixarOnb (n : Vec3) : Vec3 × Vec3 × Vec3 :=
  let s : ℚ := if n.z ≥ 0 then 1 else -1
  let a := -1 / (s + n.z)
  let b := n.x * n.y * a
  let u : Vec3 := ⟨1 + s * n.x * n.x * a, s * b, -(s * n.x)⟩
  let v : Vec3 := ⟨b, s + n.y * n.y * a, -n.y⟩
  (u, v, n)

/-- Column-major `mat3x3 * vec3`. -/
def mat3Vec (m : Vec3 × Vec3 × Vec3) (w : Vec3) : Vec3 :=
  w.x * m.1 + w.y * m.2.1 + w.z * m.2.2

/-- WGSL `struct BlueNoise` (the `data` array as an index function). -/
structure BlueNoise where
  width : ℕ
  height : ℕ
  data : ℕ → Vec2

/-- WGSL `clamp(e, lo, hi)`. -/
def clampQ (e lo hi : ℚ) : ℚ := min (max e lo) hi

/-- WGSL `animatedBlueNoise`: tileable blue noise indexed by pixel
coordinate modulo the texture size, perturbed by the golden-ratio
additive recurrence for the frame index, wrapped into `[0, 1)²`. -/
def animatedBlueNoise (bn : BlueNoise) (coord : ℕ × ℕ)
    (frameCount frameCountCycle : ℕ) : Vec2 :=
  let idx := (coord.2 % bn.height) * bn.width + (coord.1 % bn.width)
  let noise := bn.data idx
  let n := frameCount % frameCountCycle
  let a1 : ℚ := 0.7548776662466927
  let a2 : ℚ := 0.5698402909980532
  ⟨fract (noise.x + fract (a1 * n)), fract (noise.y + fract (a2 * n))⟩

/-- WGSL `const NUM_BOUNCES = 2`. -/
def NUM_BOUNCES : ℕ := 2

section Integrator

variable (cosQ sinQ sqQ expQ acosQ : ℚ → ℚ) (powQ : ℚ → ℚ → ℚ)
variable (sq : ℚ → ℚ) (offsetP : Vec3 → Vec3 → Vec3)
variable (bvhNodes : ℕ → BvhNode) (positionAttributes : ℕ → Positions)
variable (vertexAttributes : ℕ → VertexAttributes)
variable (textureDescriptors : ℕ → TextureDescriptor) (textures : ℕ → ℕ)
variable (skyState : SkyStateW) (blueNoise : BlueNoise)
variable (frameCount : ℕ) (fuel : ℕ)

/-- WGSL `SOLAR_COS_THETA_MAX = cos(TERRESTRIAL_SOLAR_RADIUS)`. -/
def SOLAR_COS_THETA_MAX : ℚ := cosQ TERRESTRIAL_SOLAR_RADIUS

/-- WGSL `SOLAR_INV_PDF = 2 * PI * (1 - SOLAR_COS_THETA_MAX)`. -/
def SOLAR_INV_PDF : ℚ := 2 * PI_W * (1 - SOLAR_COS_THETA_MAX cosQ)

/-- WGSL `directionInCone`. -/
def directionInCone (u : Vec2) (cosThetaMax : ℚ) : Vec3 :=
  let cosTheta := 1 - u.x * (1 - cosThetaMax)
  let sinTheta := sqQ (1 - cosTheta * cosTheta)
  let phi := 2 * PI_W * u.y
  ⟨cosQ phi * sinTheta, sinQ phi * sinTheta, cosTheta⟩

/-- WGSL `directionInCosineWeightedHemisphere`. -/
def directionInCosineWeightedHemisphere (u : Vec2) : Vec3 :=
  let phi := 2 * PI_W * u.y
  let sinTheta := sqQ (1 - u.x)
  ⟨cosQ phi * sinTheta, sinQ phi * sinTheta, sqQ u.x⟩

/-- WGSL `sampleSolarDiskDirection`. -/
def sampleSolarDiskDirection (u : Vec2) (cosThetaMax : ℚ)
    (direction : Vec3) : Vec3 :=
  mat3Vec (pixarOnb direction)
    (directionInCone cosQ sinQ sqQ u cosThetaMax)

/-- WGSL `evalImplicitLambertian`. -/
def evalImplicitLambertian (u : Vec2) (n : Vec3) : Vec3 :=
  mat3Vec (pixarOnb n)
    (directionInCosineWeightedHemisphere cosQ sinQ sqQ u)

/-- The sky radiance triple sampled along an escaped ray direction
(`surfaceColor`'s else-branch: `theta = acos(v.y)`,
`gamma = acos(clamp(dot(v, s), -1, 1))`). -/
def escapeSkyRadiance (v : Vec3) : Vec3 :=
  let s := skyState.sunDirection
  let theta := acosQ v.y
  let gamma := acosQ (clampQ (Vec3.dot v s) (-1) 1)
  ⟨skyRadiance cosQ expQ sqQ powQ skyState theta gamma 0,
    skyRadiance cosQ expQ sqQ powQ skyState theta gamma 1,
    skyRadiance cosQ expQ sqQ powQ skyState theta gamma 2⟩

/-- WGSL `lightSample`: solar-cone direction, Lambertian reflectance and
a shadow ray toward the sun. -/
def lightSample (u : Vec2) (position normal albedo : Vec3) : Vec3 :=
  let lightDirection := sampleSolarDiskDirection cosQ sinQ sqQ u
    (SOLAR_COS_THETA_MAX cosQ) skyState.sunDirection
  let lightIntensity : Vec3 := ⟨skyState.solarRadiances 0,
    skyState.solarRadiances 1, skyState.solarRadiances 2⟩
  let brdf := FRAC_1_PI * albedo
  let reflectance := Vec3.dot normal lightDirection * brdf
  let lightVisibility := (shadowRay sq offsetP bvhNodes positionAttributes
    ⟨position, lightDirection⟩ T_MAX fuel).visibility
  SOLAR_INV_PDF cosQ * (lightVisibility * Vec3.cmul lightIntensity
    reflectance)

/-- The bounce loop of WGSL `surfaceColor`, as a countdown over the
remaining bounces (`remaining = NUM_BOUNCES - bounce`): draw the
cosine-weighted continuation direction, multiply the throughput by the
current albedo, intersect the BVH; on a hit, update the shading point
and add its direct-light sample, on an escape add the
throughput-weighted sky radiance and stop. -/
def surfaceColorGo (bn : Vec2) :
    ℕ → Vec3 → Vec3 → Vec3 → Vec3 → Vec3 → Vec3
  | 0, _, _, _, radiance, _ => radiance
  | remaining + 1, position, normal, albedo, radiance, throughput =>
    let wi := evalImplicitLambertian cosQ sinQ sqQ bn normal
    let throughput2 := Vec3.cmul throughput albedo
    let res := rayIntersectBvh sq offsetP bvhNodes positionAttributes
      vertexAttributes ⟨position, wi⟩ T_MAX fuel
    if res.didIntersect then
      let albedo2 := evalTexture textureDescriptors textures powQ
        res.hit.textureDescriptorIdx res.hit.uv
      surfaceColorGo bn remaining res.hit.p res.hit.n albedo2
        (radiance + Vec3.cmul throughput2
          (lightSample cosQ sinQ sqQ sq offsetP bvhNodes positionAttributes
            skyState fuel bn res.hit.p res.hit.n albedo2))
        throughput2
    else
      radiance + Vec3.cmul throughput2
        (escapeSkyRadiance cosQ sqQ expQ acosQ powQ skyState wi)

/-- WGSL `surfaceColor`: animated blue-noise sample, primary
direct-light sample, then the bounce loop starting at bounce 1. -/
def surfaceColor (coord : ℕ × ℕ)
    (primaryPos primaryNormal primaryAlbedo : Vec3) : Vec3 :=
  let bn := animatedBlueNoise blueNoise coord frameCount (2 ^ 20)
  let radiance := Vec3.zero + Vec3.cmul ⟨1, 1, 1⟩
    (lightSample cosQ sinQ sqQ sq offsetP bvhNodes positionAttributes
      skyState fuel bn primaryPos primaryNormal primaryAlbedo)
  surfaceColorGo cosQ sinQ sqQ expQ acosQ powQ sq offsetP bvhNodes
    positionAttributes vertexAttributes textureDescriptors textures
    skyState fuel bn (NUM_BOUNCES - 1) primaryPos primaryNormal
    primaryAlbedo radiance ⟨1, 1, 1⟩

end Integrator

/-- C++ `SamplingParams`. -/
structure SamplingParams where
  numSamplesPerPixel : ℕ
  numBounces : ℕ
deriving DecidableEq, Repr

/-- C++ `RenderParameters`, modelled from the spec: framebuffer size,
camera, sampling parameters, sky parameters and exposure, compared
componentwise by `operator==` (the struct's definition lives in a header
outside the staged sources; its field list is taken from its
construction sites and the spec). `C` and `K` stand for the camera and
sky parameter types. -/
structure RenderParameters (C K : Type) where
  framebufferSize : ℕ × ℕ
  camera : C
  samplingParams : SamplingParams
  sky : K
  exposure : ℚ
deriving DecidableEq

/-- The renderer state relevant to temporal accumulation:
`mCurrentRenderParams`, `mFrameCount` and `mAccumulatedSampleCount`. -/
structure PathTracerState (C K : Type) where
  currentRenderParams : RenderParameters C K
  frameCount : ℕ
  accumulatedSampleCount : ℕ
deriving DecidableEq

/-- Construction: `mFrameCount(0), mAccumulatedSampleCount(0)`. -/
def initPathTracer {C K : Type} (renderParams : RenderParameters C K) :
    PathTracerState C K :=
  ⟨renderParams, 0, 0⟩

/-- C++ `ReferencePathTracer::setRenderParameters`: on any parameter
change, store the new parameters and reset the temporal accumulation. -/
def setRenderParameters {C K : Type} [DecidableEq C] [DecidableEq K]
    (renderParams : RenderParameters C K) (s : PathTracerState C K) :
    PathTracerState C K :=
  if s.currentRenderParams ≠ renderParams then
    { s with
      currentRenderParams := renderParams
      accumulatedSampleCount := 0 }
  else s

/-- C++ `ReferencePathTracer::render` (the successfully-rendered-frame
path): bump the 32-bit frame counter and advance the accumulated sample
count by one, clamped at `numSamplesPerPixel`. -/
def renderFrame {C K : Type} (s : PathTracerState C K) :
    PathTracerState C K :=
  { s with
    frameCount := (s.frameCount + 1) % 2 ^ 32
    accumulatedSampleCount :=
      min ((s.accumulatedSampleCount + 1) % 2 ^ 32)
        s.currentRenderParams.samplingParams.numSamplesPerPixel }

/-- The renderer operations that touch the accumulation state. -/
inductive RendererOp (C K : Type) where
  | setParams (renderParams : RenderParameters C K) : RendererOp C K
  | renderFrame : RendererOp C K

/-- Apply one renderer operation. -/
def applyOp {C K : Type} [DecidableEq C] [DecidableEq K] :
    RendererOp C K → PathTracerState C K → PathTracerState C K
  | RendererOp.setParams p, s => setRenderParameters p s
  | RendererOp.renderFrame, s => renderFrame s

/-- Run a sequence of renderer operations. -/
def runOps {C K : Type} [DecidableEq C] [DecidableEq K]
    (ops : List (RendererOp C K)) (s : PathTracerState C K) :
    PathTracerState C K :=
  ops.foldl (fun s op => applyOp op s) s

/-- Constant square-root stand-in used by the concrete witness scenes. -/
def witSq : ℚ → ℚ := fun _ => 1

/-- Identity offset stand-in used by the concrete witness scenes. -/
def witOffsetP : Vec3 → Vec3 → Vec3 := fun p _ => p

/-- The triangle of the repository's intersection unit test. -/
def witTriangle : Positions := ⟨⟨0, 0, 1⟩, ⟨1, 0, 1⟩, ⟨0, 1, 1⟩⟩

/-- A one-leaf BVH whose box generously contains the test triangle. -/
def witNodes : ℕ → BvhNode :=
  fun _ => ⟨⟨⟨-10, -10, -10⟩, ⟨10, 10, 10⟩⟩, 0, 0, 1, 0⟩

def witPositions : ℕ → Positions := fun _ => witTriangle

def witVattrs : ℕ → VertexAttributes :=
  fun _ => ⟨Vec3.zero, Vec3.zero, Vec3.zero, Vec2.zero, Vec2.zero, Vec2.zero, 0⟩

/-- A ray with no zero direction component that hits `witTriangle`. -/
def witRay : Ray := ⟨⟨0, 0, 0⟩, ⟨1 / 4, 1 / 4, 1⟩⟩

/-- C1: for every ray with nondegenerate direction components, every
`tMax > 0`, and every well-formed flattened BVH node array over a
triangle array, the closest-hit query `rayIntersectBvh` returns true
exactly when some triangle of the scene is accepted by
`rayIntersectTriangle` (that is, hit at a parametric distance strictly
between the epsilon and `tMax`), and on true the output `Intersection`
is the leaf record built from a hit triangle of minimal root: the
shrinking-`tMax` branch-and-bound prune never skips a leaf containing a
closer hit. -/
theorem C1_rayIntersectBvh_closest_hit
    (sq : ℚ → ℚ) (offsetP : Vec3 → Vec3 → Vec3) (nodes : ℕ → BvhNode)
    (positions : ℕ → Positions) (vattrs : ℕ → VertexAttributes)
    (ray : Ray) (tMax : ℚ) (fuel : ℕ) (t : BvhTree)
    (hdx : ray.direction.x ≠ 0) (hdy : ray.direction.y ≠ 0)
    (hdz : ray.direction.z ≠ 0) (htm : 0 < tMax)
    (hrep : represents nodes 0 t = true)
    (hwf : wfBvh nodes positions 0 t = true)
    (hfuel : t.size ≤ fuel) :
    ((rayIntersectBvh sq offsetP nodes positions vattrs ray tMax
        fuel).didIntersect = true ↔
      ∃ j ∈ trisOf nodes 0 t,
        (rayIntersectTriangle sq offsetP ray (positions j) tMax).isSome =
          true) ∧
    ((rayIntersectBvh sq offsetP nodes positions vattrs ray tMax
        fuel).didIntersect = true →
      ∃ j ∈ trisOf nodes 0 t, ∃ th : TriangleHit,
        rayIntersectTriangle sq offsetP ray (positions j) tMax = some th ∧
        (rayIntersectBvh sq offsetP nodes positions vattrs ray tMax
          fuel).hit = mkIntersection vattrs j th ∧
        (rayIntersectBvh sq offsetP nodes positions vattrs ray tMax
          fuel).tmax = th.t ∧
        ∀ k ∈ trisOf nodes 0 t, ∀ th' : TriangleHit,
          rayIntersectTriangle sq offsetP ray (positions k) tMax =
            some th' → th.t ≤ th'.t) := by
  have him := @rayIntersectBvhGo_improves sq offsetP nodes positions vattrs
    ray hdx hdy hdz fuel [] 0 ⟨tMax, false, defaultIntersection, 0⟩ t []
    hrep hwf List.Forall₂.nil (by simpa using hfuel)
  have him' : Improves sq offsetP positions vattrs ray (trisOf nodes 0 t)
      ⟨tMax, false, defaultIntersection, 0⟩
      (rayIntersectBvh sq offsetP nodes positions vattrs ray tMax fuel) := by
    simpa [stackTris, rayIntersectBvh] using him
  obtain ⟨hdid, hsome, hnone⟩ := him'
  constructor
  · rw [hdid]
    simp only [Bool.false_eq_true, false_or]
    exact exists_congr fun j => and_congr_right fun _ =>
      (rayIntersectTriangle_isSome sq offsetP ray (positions j) tMax).symm
  · intro hdidT
    have hE : ∃ j ∈ trisOf nodes 0 t,
        hitBefore ray (positions j) tMax := by
      rcases hdid.mp hdidT with hF | hE
      · exact absurd hF (by simp)
      · exact hE
    obtain ⟨j, hj, hb, he1, he2, hmin⟩ := hsome hE
    have hb' : mtAccept ray (positions j) ∧ mtT ray (positions j) < tMax :=
      hb
    refine ⟨j, hj, mtHit sq offsetP ray (positions j), ?_, ?_, ?_, ?_⟩
    · rw [rayIntersectTriangle_eq, if_pos hb']
    · exact he2
    · exact he1
    · intro k hk th' hsome'
      rw [rayIntersectTriangle_eq] at hsome'
      split_ifs at hsome' with hbk
      · have hth' : th' = mtHit sq offsetP ray (positions k) :=
          (Option.some_inj.mp hsome').symm
        have hle := hmin k hk hbk
        rw [hth']
        exact he1.symm.trans_le hle

/-- C1 witness: a concrete one-leaf BVH over the unit-test triangle and a
concrete hitting ray, on which the closest-hit characterization holds. -/
theorem C1_rayIntersectBvh_closest_hit_witness :
    (rayIntersectBvh witSq witOffsetP witNodes witPositions witVattrs
        witRay 10 1).didIntersect = true ↔
      ∃ j ∈ trisOf witNodes 0 BvhTree.leaf,
        (rayIntersectTriangle witSq witOffsetP witRay (witPositions j)
          10).isSome = true :=
  (C1_rayIntersectBvh_closest_hit witSq witOffsetP witNodes witPositions
    witVattrs witRay 10 1 BvhTree.leaf (by norm_num [witRay])
    (by norm_num [witRay]) (by norm_num [witRay]) (by norm_num)
    (by simp [represents, witNodes])
    (by norm_num [wfBvh, trisOf, witNodes, witPositions, witTriangle,
      containsTriangle, containsPoint])
    (by simp [BvhTree.size])).1

/-- The ray of the repository's triangle-intersection unit test. -/
def testRayC2 : Ray := ⟨⟨0, 0, 0⟩, ⟨0, 0, 1⟩⟩

/-- C2: `rayIntersectTriangle` returns no hit whenever `|det| < 1e-5`,
or `u` is outside `[0, 1]`, or `v < 0`, or `u + v > 1`, or the root `t`
is at or below the epsilon `1e-5`, or `t` is at or above `tMax`; every
accepted hit carries barycentric weights with `u, v ≥ 0` and
`u + v ≤ 1`; and for the unit test's ray through the known triangle
point `(0, 0, 1)` it reports a hit whose barycentrics are `(1, 0, 0)`
and whose hit point (in the reference-raytracer variant, which returns
the unoffset ray point) is exactly `(0, 0, 1)` at root `t = 1`. -/
theorem C2_rayIntersectTriangle_reject_and_roundtrip :
    (∀ (sq : ℚ → ℚ) (offsetP : Vec3 → Vec3 → Vec3) (ray : Ray)
      (tri : Positions) (tmax : ℚ),
      (|mtDet ray tri| < EPSILON ∨ mtU ray tri < 0 ∨ mtU ray tri > 1 ∨
        mtV ray tri < 0 ∨ mtU ray tri + mtV ray tri > 1 ∨
        mtT ray tri ≤ EPSILON ∨ tmax ≤ mtT ray tri) →
      rayIntersectTriangle sq offsetP ray tri tmax = none) ∧
    (∀ (sq : ℚ → ℚ) (offsetP : Vec3 → Vec3 → Vec3) (ray : Ray)
      (tri : Positions) (tmax : ℚ) (th : TriangleHit),
      rayIntersectTriangle sq offsetP ray tri tmax = some th →
      0 ≤ th.b.y ∧ 0 ≤ th.b.z ∧ th.b.y + th.b.z ≤ 1 ∧
        th.b.x = 1 - th.b.y - th.b.z) ∧
    (∀ (sq : ℚ → ℚ) (offsetP : Vec3 → Vec3 → Vec3),
      (∃ th : TriangleHit,
        rayIntersectTriangle sq offsetP testRayC2 witTriangle 1000 =
          some th ∧ th.b = ⟨1, 0, 0⟩) ∧
      (∃ res : IntersectionRT,
        rayIntersectTriangleRT sq testRayC2 witTriangle 1000 = some res ∧
          res.p = ⟨0, 0, 1⟩ ∧ res.t = 1)) := by
  refine ⟨?_, ?_, ?_⟩
  · intro sq offsetP ray tri tmax hrej
    rw [rayIntersectTriangle_eq, if_neg]
    rintro ⟨⟨h1, h2, h3, h4⟩, h5⟩
    rcases hrej with h | h | h | h | h | h | h
    · exact h1 ⟨(abs_lt.mp h).1, (abs_lt.mp h).2⟩
    · exact h2 (Or.inl h)
    · exact h2 (Or.inr h)
    · exact h3 (Or.inl h)
    · exact h3 (Or.inr h)
    · linarith
    · linarith
  · intro sq offsetP ray tri tmax th hsome
    rw [rayIntersectTriangle_eq] at hsome
    split_ifs at hsome with hb
    obtain ⟨hu0, hu1, hv0, huv⟩ := mtAccept_bary hb.1
    have hth : th = mtHit sq offsetP ray tri :=
      (Option.some_inj.mp hsome).symm
    subst hth
    exact ⟨hu0, hv0, huv, rfl⟩
  · intro sq offsetP
    have hacc : mtAccept testRayC2 witTriangle ∧
        mtT testRayC2 witTriangle < 1000 := by
      norm_num [mtAccept, mtDet, mtU, mtV, mtT, Vec3.dot, Vec3.cross,
        EPSILON, testRayC2, witTriangle]
    constructor
    · refine ⟨mtHit sq offsetP testRayC2 witTriangle, ?_, ?_⟩
      · rw [rayIntersectTriangle_eq, if_pos hacc]
      · show (⟨1 - mtU testRayC2 witTriangle - mtV testRayC2 witTriangle,
          mtU testRayC2 witTriangle, mtV testRayC2 witTriangle⟩ : Vec3) =
          ⟨1, 0, 0⟩
        norm_num [mtU, mtV, mtDet, Vec3.dot, Vec3.cross, testRayC2,
          witTriangle]
    · refine ⟨⟨testRayC2.origin + mtT testRayC2 witTriangle *
        testRayC2.direction,
        normalize sq (Vec3.cross (witTriangle.p1 - witTriangle.p0)
          (witTriangle.p2 - witTriangle.p0)),
        mtT testRayC2 witTriangle⟩, ?_, ?_, ?_⟩
      · rw [rayIntersectTriangleRT_eq, if_pos hacc]
        rfl
      · show testRayC2.origin + mtT testRayC2 witTriangle *
          testRayC2.direction = ⟨0, 0, 1⟩
        have ht : mtT testRayC2 witTriangle = 1 := by
          norm_num [mtT, mtDet, Vec3.dot, Vec3.cross, testRayC2,
            witTriangle]
        rw [ht]
        show Vec3.add ⟨0, 0, 0⟩ (Vec3.smul 1 ⟨0, 0, 1⟩) = ⟨0, 0, 1⟩
        norm_num [Vec3.add, Vec3.smul]
      · show mtT testRayC2 witTriangle = 1
        norm_num [mtT, mtDet, Vec3.dot, Vec3.cross, testRayC2, witTriangle]

/-- C2 witness: a degenerate (zero-area) triangle is rejected through the
determinant epsilon at a concrete input. -/
theorem C2_rayIntersectTriangle_reject_and_roundtrip_witness :
    rayIntersectTriangle witSq witOffsetP testRayC2
      ⟨⟨0, 0, 1⟩, ⟨0, 0, 1⟩, ⟨0, 0, 1⟩⟩ 10 = none :=
  C2_rayIntersectTriangle_reject_and_roundtrip.1 witSq witOffsetP testRayC2
    ⟨⟨0, 0, 1⟩, ⟨0, 0, 1⟩, ⟨0, 0, 1⟩⟩ 10
    (Or.inl (by norm_num [mtDet, Vec3.dot, Vec3.cross, testRayC2, EPSILON]))

/-- C5: whenever the closest-hit query reports a hit before `tMax`, the
any-hit query `shadowRay` with the same ray and the same `tMax` reports
occlusion (returns visibility `0`). -/
theorem C5_closest_hit_implies_shadow_occluded
    (sq : ℚ → ℚ) (offsetP : Vec3 → Vec3 → Vec3) (nodes : ℕ → BvhNode)
    (positions : ℕ → Positions) (vattrs : ℕ → VertexAttributes)
    (ray : Ray) (tMax : ℚ) (fuel : ℕ) (t : BvhTree)
    (hdx : ray.direction.x ≠ 0) (hdy : ray.direction.y ≠ 0)
    (hdz : ray.direction.z ≠ 0)
    (hrep : represents nodes 0 t = true)
    (hwf : wfBvh nodes positions 0 t = true)
    (hfuel : t.size ≤ fuel)
    (hhit : (rayIntersectBvh sq offsetP nodes positions vattrs ray tMax
      fuel).didIntersect = true) :
    (shadowRay sq offsetP nodes positions ray tMax fuel).visibility = 0 := by
  have him := @rayIntersectBvhGo_improves sq offsetP nodes positions vattrs
    ray hdx hdy hdz fuel [] 0 ⟨tMax, false, defaultIntersection, 0⟩ t []
    hrep hwf List.Forall₂.nil (by simpa using hfuel)
  have him' : Improves sq offsetP positions vattrs ray (trisOf nodes 0 t)
      ⟨tMax, false, defaultIntersection, 0⟩
      (rayIntersectBvh sq offsetP nodes positions vattrs ray tMax fuel) := by
    simpa [stackTris, rayIntersectBvh] using him
  have hE : ∃ j ∈ trisOf nodes 0 t, hitBefore ray (positions j) tMax := by
    rcases him'.1.mp hhit with hF | hE
    · exact absurd hF (by simp)
    · exact hE
  refine @shadowRayGo_complete sq offsetP nodes positions ray tMax
    hdx hdy hdz fuel [] 0 0 t [] hrep hwf List.Forall₂.nil
    (by simpa using hfuel) ?_
  obtain ⟨j, hj, hb⟩ := hE
  exact ⟨j, by simpa [stackTris] using hj, hb⟩

/-- C5 witness: on the concrete one-leaf scene the closest-hit query
reports a hit, and the shadow query indeed reports occlusion. -/
theorem C5_closest_hit_implies_shadow_occluded_witness :
    (shadowRay witSq witOffsetP witNodes witPositions witRay 10
      1).visibility = 0 :=
  C5_closest_hit_implies_shadow_occluded witSq witOffsetP witNodes
    witPositions witVattrs witRay 10 1 BvhTree.leaf (by norm_num [witRay])
    (by norm_num [witRay]) (by norm_num [witRay])
    (by simp [represents, witNodes])
    (by norm_num [wfBvh, trisOf, witNodes, witPositions, witTriangle,
      containsTriangle, containsPoint])
    (by simp [BvhTree.size])
    (by norm_num [rayIntersectBvh, rayIntersectBvhGo, leafLoop, triStep,
      rayIntersectTriangle, rayAabbIntersector, rayIntersectAabb,
      aabbBounds, witSq, witOffsetP, witNodes, witPositions, witRay,
      witTriangle, Vec3.dot, Vec3.cross, EPSILON, normalize,
      List.range_succ])

/-- C7: under the precondition that the BVH's interior-node depth does
not exceed 32, the explicit traversal stack index `toVisitOffset` never
exceeds 32 in either traversal (its ghost high-water observation
`maxToVisit` is at most 32), so every `nodesToVisit[toVisitOffset]`
write (at index `toVisitOffset ≤ 31` before the increment) and read (at
index `toVisitOffset ≤ 31` after the decrement) stays inside the
32-element array. -/
theorem C7_traversal_stack_bounded
    (sq : ℚ → ℚ) (offsetP : Vec3 → Vec3 → Vec3) (nodes : ℕ → BvhNode)
    (positions : ℕ → Positions) (vattrs : ℕ → VertexAttributes)
    (ray : Ray) (tMax : ℚ) (fuel : ℕ) (t : BvhTree)
    (hrep : represents nodes 0 t = true)
    (hdep : t.interiorDepth ≤ 32) :
    (rayIntersectBvh sq offsetP nodes positions vattrs ray tMax
      fuel).maxToVisit ≤ 32 ∧
    (shadowRay sq offsetP nodes positions ray tMax fuel).maxToVisit ≤
      32 := by
  constructor
  · exact @rayIntersectBvhGo_maxToVisit sq offsetP nodes positions vattrs
      ray (rayAabbIntersector ray) 32 fuel [] 0
      ⟨tMax, false, defaultIntersection, 0⟩ t [] hrep List.Forall₂.nil
      (by simpa using hdep) trivial (Nat.zero_le 32)
  · exact @shadowRayGo_maxToVisit sq offsetP nodes positions ray
      (rayAabbIntersector ray) tMax 32 fuel [] 0 0 t [] hrep
      List.Forall₂.nil (by simpa using hdep) trivial (Nat.zero_le 32)

/-- C3 counterexample: on an input violating both the elevation and the
turbidity domain (`elevation = -1`, `turbidity = 11`), `skyStateNew`
returns `ElevationOutOfRange`, not `TurbidityOutOfRange` — so the claim's
clause "returns TurbidityOutOfRange for every turbidity outside
`[1, 10]`" is false as stated: validation has elevation-first
precedence. -/
theorem C3_skyStateNew_validation_counterexample :
    (skyStateNew (fun _ => 0) (fun _ => 0) (fun _ => 0) (fun _ => 0)
        (fun _ => 0) (fun _ => 0) (fun _ _ => 0)
        ⟨-1, 11, 0, 0, 0⟩ ⟨fun _ => 0, fun _ => 0⟩).1 =
      SkyStateResult.elevationOutOfRange ∧
    SkyStateResult.elevationOutOfRange ≠
      SkyStateResult.turbidityOutOfRange := by
  constructor
  · norm_num [skyStateNew]
  · decide

/-- C3 (amended): `skyStateNew` validates in order elevation, turbidity,
albedo, with no clamping: it returns `ElevationOutOfRange` for every
elevation outside `[0, π]`; `TurbidityOutOfRange` for every turbidity
outside `[1, 10]` when the elevation is in range; `AlbedoOutOfRange` for
every albedo component outside `[0, 1]` when elevation and turbidity are
in range; and success for every input inside all three domains. -/
theorem C3_skyStateNew_validation
    (paramsR paramsG paramsB radiancesR radiancesG radiancesB : ℕ → ℚ)
    (powQ : ℚ → ℚ → ℚ) (sp : SkyParams) (s : SkyStateC) :
    ((sp.elevation < 0 ∨ sp.elevation > PI_F32) →
      (skyStateNew paramsR paramsG paramsB radiancesR radiancesG radiancesB
        powQ sp s).1 = SkyStateResult.elevationOutOfRange) ∧
    (¬(sp.elevation < 0 ∨ sp.elevation > PI_F32) →
      (sp.turbidity < 1 ∨ sp.turbidity > 10) →
      (skyStateNew paramsR paramsG paramsB radiancesR radiancesG radiancesB
        powQ sp s).1 = SkyStateResult.turbidityOutOfRange) ∧
    (¬(sp.elevation < 0 ∨ sp.elevation > PI_F32) →
      ¬(sp.turbidity < 1 ∨ sp.turbidity > 10) →
      ((sp.albedo0 < 0 ∨ sp.albedo0 > 1) ∨ (sp.albedo1 < 0 ∨ sp.albedo1 > 1) ∨
        (sp.albedo2 < 0 ∨ sp.albedo2 > 1)) →
      (skyStateNew paramsR paramsG paramsB radiancesR radiancesG radiancesB
        powQ sp s).1 = SkyStateResult.albedoOutOfRange) ∧
    (¬(sp.elevation < 0 ∨ sp.elevation > PI_F32) →
      ¬(sp.turbidity < 1 ∨ sp.turbidity > 10) →
      ¬((sp.albedo0 < 0 ∨ sp.albedo0 > 1) ∨ (sp.albedo1 < 0 ∨ sp.albedo1 > 1) ∨
        (sp.albedo2 < 0 ∨ sp.albedo2 > 1)) →
      (skyStateNew paramsR paramsG paramsB radiancesR radiancesG radiancesB
        powQ sp s).1 = SkyStateResult.success) := by
  refine ⟨fun h1 => ?_, fun h1 h2 => ?_, fun h1 h2 h3 => ?_,
    fun h1 h2 h3 => ?_⟩
  · simp only [skyStateNew, if_pos h1]
  · simp only [skyStateNew, if_neg h1, if_pos h2]
  · simp only [skyStateNew, if_neg h1, if_neg h2, if_pos h3]
  · simp only [skyStateNew, if_neg h1, if_neg h2, if_neg h3]

/-- C3 witness: the four validation outcomes at concrete inputs —
elevation `-1` rejected, turbidity `11` rejected once elevation is in
range, albedo `3/2` rejected once both are in range, and an in-domain
input accepted. -/
theorem C3_skyStateNew_validation_witness :
    (skyStateNew (fun _ => 0) (fun _ => 0) (fun _ => 0) (fun _ => 0)
        (fun _ => 0) (fun _ => 0) (fun _ _ => 0)
        ⟨-1, 3, 0, 0, 0⟩ ⟨fun _ => 0, fun _ => 0⟩).1 =
      SkyStateResult.elevationOutOfRange ∧
    (skyStateNew (fun _ => 0) (fun _ => 0) (fun _ => 0) (fun _ => 0)
        (fun _ => 0) (fun _ => 0) (fun _ _ => 0)
        ⟨1, 11, 0, 0, 0⟩ ⟨fun _ => 0, fun _ => 0⟩).1 =
      SkyStateResult.turbidityOutOfRange ∧
    (skyStateNew (fun _ => 0) (fun _ => 0) (fun _ => 0) (fun _ => 0)
        (fun _ => 0) (fun _ => 0) (fun _ _ => 0)
        ⟨1, 3, 3 / 2, 0, 0⟩ ⟨fun _ => 0, fun _ => 0⟩).1 =
      SkyStateResult.albedoOutOfRange ∧
    (skyStateNew (fun _ => 0) (fun _ => 0) (fun _ => 0) (fun _ => 0)
        (fun _ => 0) (fun _ => 0) (fun _ _ => 0)
        ⟨1, 3, 3 / 10, 3 / 10, 3 / 10⟩ ⟨fun _ => 0, fun _ => 0⟩).1 =
      SkyStateResult.success :=
  ⟨(C3_skyStateNew_validation (fun _ => 0) (fun _ => 0) (fun _ => 0)
      (fun _ => 0) (fun _ => 0) (fun _ => 0) (fun _ _ => 0)
      ⟨-1, 3, 0, 0, 0⟩ ⟨fun _ => 0, fun _ => 0⟩).1 (by norm_num),
    (C3_skyStateNew_validation (fun _ => 0) (fun _ => 0) (fun _ => 0)
      (fun _ => 0) (fun _ => 0) (fun _ => 0) (fun _ _ => 0)
      ⟨1, 11, 0, 0, 0⟩ ⟨fun _ => 0, fun _ => 0⟩).2.1
      (by norm_num [PI_F32]) (by norm_num),
    (C3_skyStateNew_validation (fun _ => 0) (fun _ => 0) (fun _ => 0)
      (fun _ => 0) (fun _ => 0) (fun _ => 0) (fun _ _ => 0)
      ⟨1, 3, 3 / 2, 0, 0⟩ ⟨fun _ => 0, fun _ => 0⟩).2.2.1
      (by norm_num [PI_F32]) (by norm_num) (by norm_num),
    (C3_skyStateNew_validation (fun _ => 0) (fun _ => 0) (fun _ => 0)
      (fun _ => 0) (fun _ => 0) (fun _ => 0) (fun _ _ => 0)
      ⟨1, 3, 3 / 10, 3 / 10, 3 / 10⟩ ⟨fun _ => 0, fun _ => 0⟩).2.2.2
      (by norm_num [PI_F32]) (by norm_num) (by norm_num)⟩

/-- C10: `skyStateNew` validates all three inputs before writing
anything: whenever it returns an error result, the out-parameter
`SkyState` is returned untouched. -/
theorem C10_skyStateNew_error_atomicity
    (paramsR paramsG paramsB radiancesR radiancesG radiancesB : ℕ → ℚ)
    (powQ : ℚ → ℚ → ℚ) (sp : SkyParams) (s : SkyStateC)
    (h : (skyStateNew paramsR paramsG paramsB radiancesR radiancesG
      radiancesB powQ sp s).1 ≠ SkyStateResult.success) :
    (skyStateNew paramsR paramsG paramsB radiancesR radiancesG radiancesB
      powQ sp s).2 = s := by
  unfold skyStateNew at h ⊢
  split_ifs at h ⊢ <;> first
    | rfl
    | exact absurd rfl h

/-- C10 witness: at the concrete out-of-range elevation `-1` the
returned state is exactly the input state. -/
theorem C10_skyStateNew_error_atomicity_witness :
    (skyStateNew (fun _ => 0) (fun _ => 0) (fun _ => 0) (fun _ => 0)
        (fun _ => 0) (fun _ => 0) (fun _ _ => 0)
        ⟨-1, 3, 0, 0, 0⟩ ⟨fun _ => 0, fun _ => 0⟩).2 =
      ⟨fun _ => 0, fun _ => 0⟩ :=
  C10_skyStateNew_error_atomicity (fun _ => 0) (fun _ => 0) (fun _ => 0)
    (fun _ => 0) (fun _ => 0) (fun _ => 0) (fun _ _ => 0)
    ⟨-1, 3, 0, 0, 0⟩ ⟨fun _ => 0, fun _ => 0⟩ (by
      have hc : (-1 : ℚ) < 0 ∨ (-1 : ℚ) > PI_F32 := by norm_num
      simp [skyStateNew, hc])

/-- C4: the WGSL sky radiance evaluation returns the channel's
radiance-distribution product scaled by the channel's radiance scalar,
plus an additive solar term equal to the channel's solar radiance when
the sun angle `gamma` is within the terrestrial solar angular radius of
0.255 degrees, and plus zero otherwise — for every `theta`, `gamma` and
channel. -/
theorem C4_skyRadiance_solar_term (cosQ expQ sqQ : ℚ → ℚ)
    (powQ : ℚ → ℚ → ℚ) (ss : SkyStateW) (theta gamma : ℚ) (channel : ℕ) :
    skyRadiance cosQ expQ sqQ powQ ss theta gamma channel =
      ss.skyRadiances channel *
        skyRadianceDist cosQ expQ sqQ powQ ss theta gamma channel +
      (if gamma ≤ TERRESTRIAL_SOLAR_RADIUS then ss.solarRadiances channel
        else 0) := by
  have hpos : (0 : ℚ) < TERRESTRIAL_SOLAR_RADIUS := by
    norm_num [TERRESTRIAL_SOLAR_RADIUS, DEGREES_TO_RADIANS, PI_W]
  simp only [skyRadiance, skyRadianceDist, div_le_one hpos]

/-- The sample-count invariant: the accumulated count never exceeds the
configured target. -/
def SampleInv {C K : Type} (s : PathTracerState C K) : Prop :=
  s.accumulatedSampleCount ≤
    s.currentRenderParams.samplingParams.numSamplesPerPixel

theorem applyOp_sampleInv {C K : Type} [DecidableEq C] [DecidableEq K]
    (op : RendererOp C K) (s : PathTracerState C K) (h : SampleInv s) :
    SampleInv (applyOp op s) := by
  cases op with
  | setParams p =>
    show SampleInv (setRenderParameters p s)
    unfold setRenderParameters
    split_ifs
    · exact Nat.zero_le _
    · exact h
  | renderFrame =>
    exact min_le_right _ _

theorem runOps_sampleInv {C K : Type} [DecidableEq C] [DecidableEq K]
    (ops : List (RendererOp C K)) (s : PathTracerState C K)
    (h : SampleInv s) : SampleInv (runOps ops s) := by
  induction ops generalizing s with
  | nil => exact h
  | cons op rest ih =>
    exact ih (applyOp op s) (applyOp_sampleInv op s h)

theorem runOps_replicate_render {C K : Type} [DecidableEq C]
    [DecidableEq K] (k : ℕ) (s : PathTracerState C K)
    (hc : SampleInv s)
    (ht : s.currentRenderParams.samplingParams.numSamplesPerPixel <
      2 ^ 32 - 1) :
    (runOps (List.replicate k RendererOp.renderFrame)
        s).accumulatedSampleCount =
      min (s.accumulatedSampleCount + k)
        s.currentRenderParams.samplingParams.numSamplesPerPixel ∧
    (runOps (List.replicate k RendererOp.renderFrame)
        s).currentRenderParams = s.currentRenderParams := by
  induction k generalizing s with
  | zero =>
    refine ⟨?_, rfl⟩
    simp only [List.replicate, runOps, List.foldl_nil, Nat.add_zero]
    exact (min_eq_left hc).symm
  | succ k ih =>
    have hmod : (s.accumulatedSampleCount + 1) % 2 ^ 32 =
        s.accumulatedSampleCount + 1 := by
      apply Nat.mod_eq_of_lt
      have := hc
      unfold SampleInv at this
      omega
    have hstep : runOps (List.replicate (k + 1) RendererOp.renderFrame) s =
        runOps (List.replicate k RendererOp.renderFrame) (renderFrame s) :=
      by
      rw [List.replicate_succ]
      rfl
    have hinv' : SampleInv (renderFrame s) := min_le_right _ _
    have hparams : (renderFrame s).currentRenderParams =
        s.currentRenderParams := rfl
    have iht := ih (renderFrame s) hinv' (by rw [hparams]; exact ht)
    rw [hstep, iht.1, iht.2]
    refine ⟨?_, rfl⟩
    show min (min ((s.accumulatedSampleCount + 1) % 2 ^ 32)
        s.currentRenderParams.samplingParams.numSamplesPerPixel + k)
        s.currentRenderParams.samplingParams.numSamplesPerPixel = _
    rw [hmod]
    omega

/-- C6: the accumulated sample counter starts at 0, stays within
`0 ≤ counter ≤ numSamplesPerPixel` after every operation sequence,
`render` advances it by exactly one per frame clamped at the configured
target (so a target of 64 reads 64 after 100 render calls), and
`setRenderParameters` resets it to 0 whenever any render parameter
changes. -/
theorem C6_accumulated_sample_counter (C K : Type) [DecidableEq C]
    [DecidableEq K] :
    (∀ p0 : RenderParameters C K,
      (initPathTracer p0).accumulatedSampleCount = 0) ∧
    (∀ (p0 : RenderParameters C K) (ops : List (RendererOp C K)),
      (runOps ops (initPathTracer p0)).accumulatedSampleCount ≤
        (runOps ops
          (initPathTracer p0)).currentRenderParams.samplingParams.numSamplesPerPixel) ∧
    (∀ s : PathTracerState C K,
      s.accumulatedSampleCount ≤
        s.currentRenderParams.samplingParams.numSamplesPerPixel →
      s.currentRenderParams.samplingParams.numSamplesPerPixel <
        2 ^ 32 - 1 →
      (renderFrame s).accumulatedSampleCount =
        min (s.accumulatedSampleCount + 1)
          s.currentRenderParams.samplingParams.numSamplesPerPixel) ∧
    (∀ p0 : RenderParameters C K,
      p0.samplingParams.numSamplesPerPixel = 64 →
      (runOps (List.replicate 100 RendererOp.renderFrame)
        (initPathTracer p0)).accumulatedSampleCount = 64) ∧
    (∀ (p : RenderParameters C K) (s : PathTracerState C K),
      s.currentRenderParams ≠ p →
      (setRenderParameters p s).accumulatedSampleCount = 0) := by
  refine ⟨fun _ => rfl, ?_, ?_, ?_, ?_⟩
  · intro p0 ops
    exact runOps_sampleInv ops (initPathTracer p0) (Nat.zero_le _)
  · intro s hc ht
    show min ((s.accumulatedSampleCount + 1) % 2 ^ 32)
      s.currentRenderParams.samplingParams.numSamplesPerPixel = _
    rw [Nat.mod_eq_of_lt (by omega)]
  · intro p0 h64
    have h := runOps_replicate_render 100 (initPathTracer p0)
      (Nat.zero_le _) (by
        show p0.samplingParams.numSamplesPerPixel < 2 ^ 32 - 1
        omega)
    rw [h.1]
    show min (0 + 100) p0.samplingParams.numSamplesPerPixel = 64
    omega
  · intro p s hne
    unfold setRenderParameters
    rw [if_pos hne]

/-- C6 witness: a concrete parameter set with target 64 — the counter
starts at 0, reads 64 after 100 rendered frames, a render from a
non-saturated state advances by one, and a camera change resets to 0. -/
theorem C6_accumulated_sample_counter_witness :
    (initPathTracer (⟨(800, 600), 0, ⟨64, 4⟩, 0, 1⟩ :
      RenderParameters ℕ ℕ)).accumulatedSampleCount = 0 ∧
    (runOps (List.replicate 100 RendererOp.renderFrame)
      (initPathTracer (⟨(800, 600), 0, ⟨64, 4⟩, 0, 1⟩ :
        RenderParameters ℕ ℕ))).accumulatedSampleCount = 64 ∧
    (setRenderParameters (⟨(800, 600), 1, ⟨64, 4⟩, 0, 1⟩ :
        RenderParameters ℕ ℕ)
      (initPathTracer (⟨(800, 600), 0, ⟨64, 4⟩, 0,
        1⟩))).accumulatedSampleCount = 0 :=
  ⟨(C6_accumulated_sample_counter ℕ ℕ).1 _,
    (C6_accumulated_sample_counter ℕ ℕ).2.2.2.1 _ rfl,
    (C6_accumulated_sample_counter ℕ ℕ).2.2.2.2 _ _ (by
      intro h
      exact absurd (congrArg RenderParameters.camera h) (by decide))⟩

/-- C9: texture lookup wraps UV by fractional part before indexing, so
adding any integers to the UV coordinates samples the same texel; in
particular UV `(1.25, -0.25)` on a 4×4 texture addresses the same texel
as UV `(0.25, 0.75)`; and the fetched 8-bit components are normalized to
`[0, 1]` and decoded with `pow(c, 2.2)`. -/
theorem C9_textureLookup_wrap (textures : ℕ → ℕ) (powQ : ℚ → ℚ → ℚ) :
    (∀ (desc : TextureDescriptor) (uv : Vec2) (m n : ℤ),
      textureLookup textures powQ desc ⟨uv.x + m, uv.y + n⟩ =
        textureLookup textures powQ desc uv) ∧
    textureTexelIndex ⟨4, 4, 0⟩ ⟨5 / 4, -(1 / 4)⟩ =
      textureTexelIndex ⟨4, 4, 0⟩ ⟨1 / 4, 3 / 4⟩ ∧
    (∀ (desc : TextureDescriptor) (uv : Vec2),
      textureLookup textures powQ desc uv =
        ⟨powQ ((((textures (desc.offset + textureTexelIndex desc uv) >>> 16)
            &&& 255 : ℕ) : ℚ) / 255) (11 / 5),
          powQ ((((textures (desc.offset + textureTexelIndex desc uv) >>> 8)
            &&& 255 : ℕ) : ℚ) / 255) (11 / 5),
          powQ ((((textures (desc.offset + textureTexelIndex desc uv))
            &&& 255 : ℕ) : ℚ) / 255) (11 / 5)⟩) := by
  have hfract : ∀ (x : ℚ) (m : ℤ), fract (x + m) = fract x := by
    intro x m
    simp [fract, Int.floor_add_int]
  have hidx : ∀ (desc : TextureDescriptor) (uv : Vec2) (m n : ℤ),
      textureTexelIndex desc ⟨uv.x + m, uv.y + n⟩ =
        textureTexelIndex desc uv := by
    intro desc uv m n
    simp only [textureTexelIndex, hfract]
  refine ⟨?_, ?_, ?_⟩
  · intro desc uv m n
    simp only [textureLookup, hidx]
  · have f1 : ⌊(5 / 4 : ℚ)⌋ = 1 := by norm_num [Int.floor_eq_iff]
    have f2 : ⌊(-(1 / 4) : ℚ)⌋ = -1 := by norm_num [Int.floor_eq_iff]
    have f3 : ⌊(1 / 4 : ℚ)⌋ = 0 := by norm_num [Int.floor_eq_iff]
    have f4 : ⌊(3 / 4 : ℚ)⌋ = 0 := by norm_num [Int.floor_eq_iff]
    simp only [textureTexelIndex, fract, f1, f2, f3, f4]
    norm_num [Int.floor_eq_iff, Int.floor_one]
  · intro desc uv
    norm_num [textureLookup]

/-- C8: at every bounce of the integrator loop at which the continuation
ray escapes the scene (`rayIntersectBvh` reports no hit), the loop adds
the sky radiance along the escaped direction weighted by the accumulated
throughput to the radiance and terminates immediately: whatever bounces
remain, the result is exactly the radiance so far plus that one sky
term, with no further direct-light samples evaluated. -/
theorem C8_surfaceColor_escape_terminates
    (cosQ sinQ sqQ expQ acosQ : ℚ → ℚ) (powQ : ℚ → ℚ → ℚ)
    (sq : ℚ → ℚ) (offsetP : Vec3 → Vec3 → Vec3)
    (bvhNodes : ℕ → BvhNode) (positionAttributes : ℕ → Positions)
    (vertexAttributes : ℕ → VertexAttributes)
    (textureDescriptors : ℕ → TextureDescriptor) (textures : ℕ → ℕ)
    (skyState : SkyStateW) (fuel : ℕ) (bn : Vec2) (remaining : ℕ)
    (position normal albedo radiance throughput : Vec3)
    (hesc : (rayIntersectBvh sq offsetP bvhNodes positionAttributes
      vertexAttributes
      ⟨position, evalImplicitLambertian cosQ sinQ sqQ bn normal⟩ T_MAX
      fuel).didIntersect = false) :
    surfaceColorGo cosQ sinQ sqQ expQ acosQ powQ sq offsetP bvhNodes
        positionAttributes vertexAttributes textureDescriptors textures
        skyState fuel bn (remaining + 1) position normal albedo radiance
        throughput =
      radiance + Vec3.cmul (Vec3.cmul throughput albedo)
        (escapeSkyRadiance cosQ sqQ expQ acosQ powQ skyState
          (evalImplicitLambertian cosQ sinQ sqQ bn normal)) := by
  rw [surfaceColorGo]
  simp only [hesc, Bool.false_eq_true, if_false]

/-- C8 witness: a concrete state in which the continuation ray misses
the one-leaf scene, so the loop returns the radiance plus the single
throughput-weighted sky term. -/
theorem C8_surfaceColor_escape_terminates_witness :
    surfaceColorGo (fun _ => 0) (fun _ => 0) (fun _ => 0) (fun _ => 0)
        (fun _ => 0) (fun _ _ => 0) witSq witOffsetP witNodes witPositions
        witVattrs (fun _ => ⟨1, 1, 0⟩) (fun _ => 0)
        ⟨fun _ => 0, fun _ => 0, fun _ => 0, Vec3.zero⟩ 1 ⟨0, 0⟩ 1
        ⟨5, 5, 5⟩ ⟨0, 0, 1⟩ ⟨1 / 2, 1 / 2, 1 / 2⟩ ⟨1, 2, 3⟩ ⟨1, 1, 1⟩ =
      (⟨1, 2, 3⟩ : Vec3) + Vec3.cmul
        (Vec3.cmul ⟨1, 1, 1⟩ ⟨1 / 2, 1 / 2, 1 / 2⟩)
        (escapeSkyRadiance (fun _ => 0) (fun _ => 0) (fun _ => 0)
          (fun _ => 0) (fun _ _ => 0)
          ⟨fun _ => 0, fun _ => 0, fun _ => 0, Vec3.zero⟩
          (evalImplicitLambertian (fun _ => 0) (fun _ => 0) (fun _ => 0)
            ⟨0, 0⟩ ⟨0, 0, 1⟩)) :=
  C8_surfaceColor_escape_terminates (fun _ => 0) (fun _ => 0) (fun _ => 0)
    (fun _ => 0) (fun _ => 0) (fun _ _ => 0) witSq witOffsetP witNodes
    witPositions witVattrs (fun _ => ⟨1, 1, 0⟩) (fun _ => 0)
    ⟨fun _ => 0, fun _ => 0, fun _ => 0, Vec3.zero⟩ 1 ⟨0, 0⟩ 0
    ⟨5, 5, 5⟩ ⟨0, 0, 1⟩ ⟨1 / 2, 1 / 2, 1 / 2⟩ ⟨1, 2, 3⟩ ⟨1, 1, 1⟩
    (by norm_num [rayIntersectBvh, rayIntersectBvhGo, rayAabbIntersector,
      rayIntersectAabb, aabbBounds, evalImplicitLambertian,
      directionInCosineWeightedHemisphere, mat3Vec, pixarOnb, witNodes,
      Vec3.dot, Vec3.smul, Vec3.add, PI_W, T_MAX])

/-- C7 witness: on the concrete one-leaf scene both traversals keep the
stack index within the 32-entry budget. -/
theorem C7_traversal_stack_bounded_witness :
    (rayIntersectBvh witSq witOffsetP witNodes witPositions witVattrs
      witRay 10 1).maxToVisit ≤ 32 ∧
    (shadowRay witSq witOffsetP witNodes witPositions witRay 10
      1).maxToVisit ≤ 32 :=
  C7_traversal_stack_bounded witSq witOffsetP witNodes witPositions
    witVattrs witRay 10 1 BvhTree.leaf (by simp [represents, witNodes])
    (by simp [BvhTree.interiorDepth])

end PT
